import Mathlib

/-!
# Kanban board: the server-side task store of `backend/server.js`

The server keeps one module-level array `tasks` and registers five socket
handlers (`task:create`, `task:update`, `task:move`, `task:delete`,
`tasks:reset`).  Each handler is embedded below as a pure function from the
store before the request (and the request payload) to an `Outcome`: the store
after the request, the `sync:tasks` emissions it made, and the error it threw,
if any.

Payloads come off the wire, so they are arbitrary JavaScript values; records are
JavaScript objects.  Both are modelled explicitly.
-/

namespace Kanban

/-! ## JavaScript values -/

/-- A JavaScript value as far as the handlers can observe it.  Numbers are kept
as integers: the handlers only test a number for truthiness and for strict
equality. -/
inductive JSValue where
  | undefined : JSValue
  | null : JSValue
  | bool (b : Bool) : JSValue
  | num (n : Int) : JSValue
  | str (s : String) : JSValue
  | arr (items : List JSValue) : JSValue
  | obj (props : List (String × JSValue)) : JSValue

/-- An object: its own enumerable properties as key-value pairs.  When a key
occurs more than once the last occurrence is the property, as in a parsed JSON
text. -/
abbrev JSObject := List (String × JSValue)

/-- The module-level array `tasks`. -/
abbrev Store := List JSObject

/-- The errors a handler can throw: reading a property of `undefined` or
`null`. -/
inductive JSError where
  | typeError : JSError
  deriving DecidableEq, Repr

/-- Truthiness, as used by the operator `||`. -/
def truthy : JSValue → Bool
  | .undefined => false
  | .null => false
  | .bool b => b
  | .num n => n != 0
  | .str s => s != ""
  | .arr _ => true
  | .obj _ => true

/-- The expression `a || b`. -/
def jsOr (a b : JSValue) : JSValue :=
  if truthy a then a else b

/-- The operator `===` between a stored value and a value that arrived in a
payload.  Primitives compare by value; an array or object is only ever
identical to itself, and a deserialised payload never shares a reference with
the store. -/
def strictEq : JSValue → JSValue → Bool
  | .undefined, .undefined => true
  | .null, .null => true
  | .bool a, .bool b => a == b
  | .num a, .num b => a == b
  | .str a, .str b => a == b
  | _, _ => false

/-- Own-property lookup; the last binding of a key wins. -/
def lookupProp : JSObject → String → Option JSValue
  | [], _ => none
  | (k, v) :: rest, key =>
    match lookupProp rest key with
    | some w => some w
    | none => if k = key then some v else none

/-- Reading `o.key` on an object: `undefined` when the property is missing. -/
def JSObject.get (o : JSObject) (key : String) : JSValue :=
  (lookupProp o key).getD .undefined

/-- Whether the object has an own property `key`. -/
def hasProp (o : JSObject) (key : String) : Bool :=
  (lookupProp o key).isSome

/-- Overwrite the value bound to `key` wherever it occurs. -/
def overwriteProp : JSObject → String → JSValue → JSObject
  | [], _, _ => []
  | (k, w) :: rest, key, v =>
    (k, if k = key then v else w) :: overwriteProp rest key v

/-- The assignment `o[key] = v`: an existing property keeps its position and
takes the new value, a new property is appended. -/
def setProp (o : JSObject) (key : String) (v : JSValue) : JSObject :=
  if hasProp o key then overwriteProp o key v else o ++ [(key, v)]

/-- Index keys `"n"`, `"n+1"`, ... for the elements of an array or the
characters of a string. -/
def indexedFrom : Nat → List JSValue → JSObject
  | _, [] => []
  | n, v :: rest => (toString n, v) :: indexedFrom (n + 1) rest

/-- The own enumerable properties of a value, in the order a spread visits
them. -/
def ownProps : JSValue → JSObject
  | .obj props => props
  | .arr items => indexedFrom 0 items
  | .str s => indexedFrom 0 (s.toList.map (fun c => JSValue.str (String.singleton c)))
  | _ => []

/-- Reading `v.key`.  Throws on `undefined` and `null`; on any other value it
is the own property, or `length` of a string or array, or `undefined`.  (No
key the handlers read is inherited from a prototype.) -/
def getProp (v : JSValue) (key : String) : Except JSError JSValue :=
  match v with
  | .undefined => .error .typeError
  | .null => .error .typeError
  | .str s =>
    if key = "length" then .ok (.num s.length) else .ok (JSObject.get (ownProps (.str s)) key)
  | .arr items =>
    if key = "length" then .ok (.num items.length) else .ok (JSObject.get (ownProps (.arr items)) key)
  | w => .ok (JSObject.get (ownProps w) key)

/-- A total reading of `v.key`, for values on which the read does not throw. -/
def propOf (v : JSValue) (key : String) : JSValue :=
  match getProp v key with
  | .ok w => w
  | .error _ => .undefined

/-- The object spread `{ ...base, ...v }` once `base` has been copied: every own
enumerable property of `v` is assigned in turn. -/
def spread (base : JSObject) (v : JSValue) : JSObject :=
  (ownProps v).foldl (fun acc kv => setProp acc kv.1 kv.2) base

/-- The method `Array.prototype.findIndex` with a callback that may throw; `none`
stands for the result `-1`. -/
def findIndex (pred : JSObject → Except JSError Bool) : Store → Except JSError (Option Nat)
  | [] => .ok none
  | t :: rest =>
    match pred t with
    | .error e => .error e
    | .ok true => .ok (some 0)
    | .ok false =>
      match findIndex pred rest with
      | .error e => .error e
      | .ok none => .ok none
      | .ok (some i) => .ok (some (i + 1))

/-! ## `generateId` -/

/-- One base-36 digit, `0`-`9` then `a`-`z`. -/
def digit36 (d : Nat) : Char :=
  if d < 10 then Char.ofNat (48 + d) else Char.ofNat (87 + d)

/-- The base-36 digits of `n`, most significant first; `fuel` bounds the number
of digits. -/
def toDigits36 : Nat → Nat → List Char
  | 0, _ => []
  | fuel + 1, n =>
    if n < 36 then [digit36 n] else toDigits36 fuel (n / 36) ++ [digit36 (n % 36)]

/-- The call `n.toString(36)` for a non-negative integer. -/
def toString36 (n : Nat) : String :=
  String.mk (toDigits36 (n + 1) n)

/-- The call `s.substr(start, len)` for non-negative `start` and `len`. -/
def substr (s : String) (start len : Nat) : String :=
  (s.drop start).take len

/-- What a `task:create` reads from its environment: `Date.now()` in
milliseconds, the text `Math.random().toString(36)`, and the text
`new Date().toISOString()`. -/
structure Env where
  now : Nat
  random36 : String
  isoNow : String

/-- The function `generateId`. -/
def generateId (env : Env) : String :=
  toString36 env.now ++ "-" ++ substr env.random36 2 9

/-! ## The handlers -/

/-- An emission of the event `sync:tasks`: to every connected socket
(`io.emit`) or to one socket (`socket.emit`). -/
inductive Emit where
  | all (snapshot : Store) : Emit
  | one (socketId : String) (snapshot : Store) : Emit

/-- What running one handler leaves behind. -/
structure Outcome where
  tasks : Store
  emitted : List Emit
  error : Option JSError

/-- The object literal built by the `task:create` handler. -/
def newTask (env : Env) (taskData : JSValue) : Except JSError JSObject := do
  let id := generateId env
  let title ← getProp taskData "title"
  let description ← getProp taskData "description"
  let priority ← getProp taskData "priority"
  let category ← getProp taskData "category"
  let column ← getProp taskData "column"
  let attachments ← getProp taskData "attachments"
  pure [("id", .str id),
        ("title", jsOr title (.str "Untitled Task")),
        ("description", jsOr description (.str "")),
        ("priority", jsOr priority (.str "Medium")),
        ("category", jsOr category (.str "Feature")),
        ("column", jsOr column (.str "To Do")),
        ("attachments", jsOr attachments (.arr [])),
        ("createdAt", .str env.isoNow)]

/-- The handler of `task:create`. -/
def taskCreate (env : Env) (tasks : Store) (taskData : JSValue) : Outcome :=
  match newTask env taskData with
  | .error e => { tasks := tasks, emitted := [], error := some e }
  | .ok task =>
    let tasks := tasks ++ [task]
    { tasks := tasks, emitted := [.all tasks], error := none }

/-- The handler of `task:update`. -/
def taskUpdate (tasks : Store) (updatedTask : JSValue) : Outcome :=
  match findIndex (fun t => (getProp updatedTask "id").map (strictEq (t.get "id"))) tasks with
  | .error e => { tasks := tasks, emitted := [], error := some e }
  | .ok none => { tasks := tasks, emitted := [], error := none }
  | .ok (some index) =>
    let tasks := tasks.modify (fun t => spread (spread [] (.obj t)) updatedTask) index
    { tasks := tasks, emitted := [.all tasks], error := none }

/-- The handler of `task:move`; its parameter is destructured as
`{ taskId, newColumn }`. -/
def taskMove (tasks : Store) (payload : JSValue) : Outcome :=
  match getProp payload "taskId", getProp payload "newColumn" with
  | .ok taskId, .ok newColumn =>
    match findIndex (fun t => .ok (strictEq (t.get "id") taskId)) tasks with
    | .error e => { tasks := tasks, emitted := [], error := some e }
    | .ok none => { tasks := tasks, emitted := [], error := none }
    | .ok (some index) =>
      let tasks := tasks.modify (fun t => setProp t "column" newColumn) index
      { tasks := tasks, emitted := [.all tasks], error := none }
  | .error e, _ => { tasks := tasks, emitted := [], error := some e }
  | _, .error e => { tasks := tasks, emitted := [], error := some e }

/-- The handler of `task:delete`. -/
def taskDelete (tasks : Store) (taskId : JSValue) : Outcome :=
  let tasks := tasks.filter (fun t => !strictEq (t.get "id") taskId)
  { tasks := tasks, emitted := [.all tasks], error := none }

/-- The handler of `tasks:reset`. -/
def tasksReset (_tasks : Store) : Outcome :=
  { tasks := [], emitted := [.all []], error := none }

/-! ## Requests and reachable stores -/

/-- One mutation request as it reaches the server. -/
inductive Request where
  | create (env : Env) (taskData : JSValue) : Request
  | update (updatedTask : JSValue) : Request
  | move (payload : JSValue) : Request
  | delete (taskId : JSValue) : Request
  | reset : Request

/-- Dispatch of a request to its handler. -/
def handle (tasks : Store) : Request → Outcome
  | .create env taskData => taskCreate env tasks taskData
  | .update updatedTask => taskUpdate tasks updatedTask
  | .move payload => taskMove tasks payload
  | .delete taskId => taskDelete tasks taskId
  | .reset => tasksReset tasks

/-- The store of the process after a sequence of requests, handled one after
another.  No handler catches an error, so the first request whose handler
throws ends the Node process: the requests after it are not handled, and the
store is the one the process held when it exited. -/
def run (tasks : Store) : List Request → Store
  | [] => tasks
  | r :: rest =>
    match (handle tasks r).error with
    | some _ => (handle tasks r).tasks
    | none => run (handle tasks r).tasks rest

/-- The record carries a string under `id`. -/
def hasStringId (t : JSObject) : Bool :=
  match t.get "id" with
  | .str _ => true
  | _ => false

/-- Every record of the store carries a string under `id`, as every record
built by `task:create` does. -/
def idsAreStrings (tasks : Store) : Bool :=
  tasks.all hasStringId

/-- The first position `i` holds a record whose `id` is `===` to `pid`, and no
earlier position does. -/
def FirstMatch (tasks : Store) (pid : JSValue) (i : Nat) (old : JSObject) : Prop :=
  tasks[i]? = some old ∧ strictEq (old.get "id") pid = true
    ∧ ∀ j t, j < i → tasks[j]? = some t → strictEq (t.get "id") pid = false

/-! ## Sockets and the delivery of emissions -/

/-- The sockets an emission reaches and the snapshot each one gets, given the
connected sockets: `io.emit` reaches every connected socket, `socket.emit` the
one socket it is called on. -/
def deliveries (sockets : List String) : Emit → List (String × Store)
  | .all snapshot => sockets.map (fun s => (s, snapshot))
  | .one socketId snapshot => [(socketId, snapshot)]

/-- The snapshots the socket `s` receives from a list of emissions, in order. -/
def received (sockets : List String) : List Emit → String → List Store
  | [], _ => []
  | e :: rest, s =>
    ((deliveries sockets e).filter (fun d => d.1 == s)).map Prod.snd ++ received sockets rest s

/-- The server: the array `tasks` and the sockets currently connected. -/
structure Server where
  tasks : Store
  sockets : List String

/-- What reaches the server: a socket connects, a connected socket sends a
mutation request, a socket disconnects. -/
inductive Event where
  | connect (socketId : String) : Event
  | request (socketId : String) (req : Request) : Event
  | disconnect (socketId : String) : Event

/-- The server handles one event to completion: the `connection` callback sends
the store to the new socket, a request runs its handler, the `disconnect`
callback only logs. -/
def step (sv : Server) : Event → Server × List Emit
  | .connect socketId =>
    ({ tasks := sv.tasks, sockets := sv.sockets ++ [socketId] }, [.one socketId sv.tasks])
  | .request _ req =>
    ({ tasks := (handle sv.tasks req).tasks, sockets := sv.sockets }, (handle sv.tasks req).emitted)
  | .disconnect socketId =>
    ({ tasks := sv.tasks, sockets := sv.sockets.filter (fun s => s != socketId) }, [])

/-- Whether handling the event throws: only the handler of a request can. -/
def throws (sv : Server) : Event → Bool
  | .request _ req => (handle sv.tasks req).error.isSome
  | _ => false

/-- The server after a sequence of events, handled in the order of arrival.
An event whose handling throws ends the process, and the events after it are
not handled. -/
def serve (sv : Server) : List Event → Server
  | [] => sv
  | ev :: rest => if throws sv ev then (step sv ev).1 else serve (step sv ev).1 rest

/-- The mutation requests among a sequence of events, in order. -/
def requestsOf : List Event → List Request
  | [] => []
  | .request _ req :: rest => req :: requestsOf rest
  | _ :: rest => requestsOf rest

/-! ## Predicates on requests and stores -/

/-- The ids of the records of a store, in order. -/
def storeIds (tasks : Store) : List JSValue :=
  tasks.map (fun t => t.get "id")

/-- The ids that the `task:create` requests of a sequence generate, in order. -/
def createdIds : List Request → List JSValue
  | [] => []
  | .create env _ :: rest => .str (generateId env) :: createdIds rest
  | _ :: rest => createdIds rest

/-- The target of an update or a move is the id of some record; the other
requests have no target to miss. -/
def targetKnown (tasks : Store) : Request → Bool
  | .update updatedTask => tasks.any (fun t => strictEq (t.get "id") (propOf updatedTask "id"))
  | .move payload => tasks.any (fun t => strictEq (t.get "id") (propOf payload "taskId"))
  | _ => true

/-- The value is neither `undefined` nor `null`. -/
def present : JSValue → Bool
  | .undefined => false
  | .null => false
  | _ => true

/-- The request carries a payload whose properties can be read: a create, update
or move with a payload other than `undefined` and `null`.  A delete never reads
into its payload and a reset has none. -/
def payloadPresent : Request → Bool
  | .create _ taskData => present taskData
  | .update updatedTask => present updatedTask
  | .move payload => present payload
  | .delete _ => true
  | .reset => true

/-- The defaults of the `task:create` handler, field by field. -/
def createDefaults : List (String × JSValue) :=
  [("title", .str "Untitled Task"), ("description", .str ""), ("priority", .str "Medium"),
   ("category", .str "Feature"), ("column", .str "To Do"), ("attachments", .arr [])]

/-- The fully updated store of a request, in the words of the specification:
`out` is the store `tasks` with the request applied completely. -/
def Applied (tasks : Store) : Request → Store → Prop
  | .create env taskData, out =>
    ∃ task, out = tasks ++ [task] ∧ task.get "id" = .str (generateId env)
      ∧ task.get "createdAt" = .str env.isoNow
      ∧ ∀ kd ∈ createDefaults, task.get kd.1 = jsOr (propOf taskData kd.1) kd.2
  | .update updatedTask, out =>
    ∃ i old pid merged, getProp updatedTask "id" = .ok pid ∧ FirstMatch tasks pid i old
      ∧ out.length = tasks.length ∧ out[i]? = some merged
      ∧ (∀ key, lookupProp merged key
            = (lookupProp (ownProps updatedTask) key).orElse (fun _ => lookupProp old key))
      ∧ ∀ j, j ≠ i → out[j]? = tasks[j]?
  | .move payload, out =>
    ∃ i old taskId newColumn moved, getProp payload "taskId" = .ok taskId
      ∧ getProp payload "newColumn" = .ok newColumn ∧ FirstMatch tasks taskId i old
      ∧ out.length = tasks.length ∧ out[i]? = some moved
      ∧ moved.get "column" = newColumn
      ∧ (∀ key, key ≠ "column" → lookupProp moved key = lookupProp old key)
      ∧ ∀ j, j ≠ i → out[j]? = tasks[j]?
  | .delete taskId, out => out = tasks.filter (fun t => !strictEq (t.get "id") taskId)
  | .reset, out => out = []

/-- Every record of the store has a truthy `title`: not missing and not the
empty string. -/
def titlesNonEmpty (tasks : Store) : Bool :=
  tasks.all (fun t => truthy (t.get "title"))

/-- The request cannot blank a title: it is not an update whose payload carries
a falsy `title` of its own. -/
def keepsTitle : Request → Bool
  | .update updatedTask =>
    match lookupProp (ownProps updatedTask) "title" with
    | none => true
    | some v => truthy v
  | _ => true

/-! ## Priorities -/

/-- The value is one of the three priorities "Low", "Medium", "High". -/
def isPriority : JSValue → Bool
  | .str s => s == "Low" || s == "Medium" || s == "High"
  | _ => false

/-- Every record of the store has one of the three priorities. -/
def prioritiesValid (tasks : Store) : Bool :=
  tasks.all (fun t => isPriority (t.get "priority"))

/-- The request cannot store a priority outside the three: a create whose
payload gives no (or a falsy) priority or one of the three, an update whose
payload has no `priority` of its own or one of the three, or any other
request. -/
def keepsPriority : Request → Bool
  | .create _ taskData =>
    !truthy (propOf taskData "priority") || isPriority (propOf taskData "priority")
  | .update updatedTask =>
    match lookupProp (ownProps updatedTask) "priority" with
    | none => true
    | some v => isPriority v
  | _ => true

/-! ## The board: `KanbanBoard.jsx` and `TaskCard.jsx` -/

/-- The constant `COLUMNS` of `KanbanBoard.jsx` and `TaskCard.jsx`. -/
def COLUMNS : List String :=
  ["To Do", "In Progress", "Done"]

/-- The constant `moveOptions` of `TaskCard`: the columns other than the
task's. -/
def moveOptions (task : JSObject) : List String :=
  COLUMNS.filter (fun col => !strictEq (.str col) (task.get "column"))

/-- The `tasks` prop that `KanbanBoard` passes to the `KanbanColumn` titled
`column`. -/
def columnTasks (tasks : Store) (column : String) : Store :=
  tasks.filter (fun t => strictEq (t.get "column") (.str column))

/-- The columns `KanbanBoard` renders: each title of `COLUMNS` with the tasks
passed to its `KanbanColumn`. -/
def boardColumns (tasks : Store) : List (String × Store) :=
  COLUMNS.map (fun column => (column, columnTasks tasks column))

/-- The tasks that no `KanbanColumn` receives. -/
def offBoard (tasks : Store) : Store :=
  tasks.filter (fun t => !COLUMNS.any (fun column => strictEq (t.get "column") (.str column)))

/-- The store after a move, written as a recursion over the store: the first
record whose id is `===` to `taskId` gets the column. -/
def moveFirst (taskId newColumn : JSValue) : Store → Store
  | [] => []
  | t :: rest =>
    if strictEq (t.get "id") taskId then setProp t "column" newColumn :: rest
    else t :: moveFirst taskId newColumn rest

/-! ## The task form: `TaskModal.jsx` -/

/-- The characters `String.prototype.trim` strips: the ECMAScript white space
and line terminator code points. -/
def isJSWhitespace (c : Char) : Bool :=
  c.toNat == 0x9 || c.toNat == 0xA || c.toNat == 0xB || c.toNat == 0xC || c.toNat == 0xD
    || c.toNat == 0x20 || c.toNat == 0xA0 || c.toNat == 0x1680
    || (0x2000 ≤ c.toNat && c.toNat ≤ 0x200A)
    || c.toNat == 0x2028 || c.toNat == 0x2029 || c.toNat == 0x202F || c.toNat == 0x205F
    || c.toNat == 0x3000 || c.toNat == 0xFEFF

/-- The characters of a trimmed string. -/
def trimChars (cs : List Char) : List Char :=
  ((cs.dropWhile isJSWhitespace).reverse.dropWhile isJSWhitespace).reverse

/-- The call `s.trim()`. -/
def jsTrim (s : String) : String :=
  String.mk (trimChars s.toList)

/-- The expression `a && b`. -/
def jsAnd (a b : JSValue) : JSValue :=
  if truthy a then b else a

/-- The optional chain `v?.key`. -/
def optChain (v : JSValue) (key : String) : JSValue :=
  match v with
  | .undefined => .undefined
  | .null => .undefined
  | w => propOf w key

/-- The call `v.trim()`.  A string is trimmed.  A value of another kind has no
method `trim` (no value of the model is a function, so neither has an object
with a property of that name), and the call throws a `TypeError`. -/
def callTrim : JSValue → Except JSError String
  | .str s => .ok (jsTrim s)
  | _ => .error .typeError

/-- The state of the form when it is submitted: the prop `task` and the values
of the five state hooks that `handleSubmit` reads.  A state hook holds whatever
value it was initialised with until an input replaces it by a string. -/
structure FormState where
  task : JSValue
  title : JSValue
  description : JSValue
  priority : JSValue
  category : JSValue
  attachments : JSValue

/-- The state of the form when the modal opens for `task`: the initial values
of the state hooks, `task?.title || ""` and so on. -/
def initialForm (task : JSValue) : FormState :=
  { task := task
    title := jsOr (optChain task "title") (.str "")
    description := jsOr (optChain task "description") (.str "")
    priority := jsOr (optChain task "priority") (.str "Medium")
    category := jsOr (optChain task "category") (.str "Feature")
    attachments := jsOr (optChain task "attachments") (.arr []) }

/-- What a run of `handleSubmit` does: the calls it makes to `onSave`, each with
its argument, and the error it throws, if any. -/
structure SubmitOutcome where
  saved : List JSObject
  error : Option JSError

/-- The function `handleSubmit` of `TaskModal`.  The guard calls `title.trim()`;
the argument of `onSave` is evaluated property by property, so that
`description.trim()` is called, and may throw, before `onSave` is. -/
def handleSubmit (form : FormState) : SubmitOutcome :=
  match callTrim form.title with
  | .error e => { saved := [], error := some e }
  | .ok t =>
    if t = "" then { saved := [], error := none }
    else
      match callTrim form.description with
      | .error e => { saved := [], error := some e }
      | .ok d =>
        let o := spread [] (jsAnd (optChain form.task "id") (.obj [("id", propOf form.task "id")]))
        let o := setProp o "title" (.str t)
        let o := setProp o "description" (.str d)
        let o := setProp o "priority" form.priority
        let o := setProp o "category" form.category
        let o := setProp o "column" (jsOr (optChain form.task "column") (.str "To Do"))
        let o := setProp o "attachments" form.attachments
        { saved := [o], error := none }

/-- The constant `ALLOWED_FILE_TYPES`. -/
def ALLOWED_FILE_TYPES : List String :=
  ["image/jpeg", "image/png", "image/gif", "image/webp", "application/pdf"]

/-- What `handleFileUpload` reads of a chosen file. -/
structure FileInfo where
  name : String
  type : String

/-- The message `handleFileUpload` passes to `setFileError` for a file. -/
def unsupportedMessage (file : FileInfo) : String :=
  "Unsupported file format: " ++ file.name ++ ". Allowed: JPEG, PNG, GIF, WebP, PDF"

/-- What one run of `handleFileUpload` does: its calls of `setFileError`, in
order, and the files it hands to a `FileReader`, in order. -/
structure UploadEffects where
  fileErrors : List String
  reads : List FileInfo

/-- The body of the `forEach` of `handleFileUpload` for one file. -/
def uploadOne (acc : UploadEffects) (file : FileInfo) : UploadEffects :=
  if !ALLOWED_FILE_TYPES.contains file.type then
    { fileErrors := acc.fileErrors ++ [unsupportedMessage file], reads := acc.reads }
  else
    { fileErrors := acc.fileErrors, reads := acc.reads ++ [file] }

/-- The function `handleFileUpload` of `TaskModal`. -/
def handleFileUpload (files : List FileInfo) : UploadEffects :=
  files.foldl uploadOne { fileErrors := [""], reads := [] }

/-- The state `fileError` after a run of `handleFileUpload`: the argument of the
last call of `setFileError`. -/
def fileErrorAfter (effects : UploadEffects) : String :=
  effects.fileErrors.getLast?.getD ""

/-- The callback `reader.onload` for a file that was read as `url`: the
attachments after it. -/
def onload (file : FileInfo) (url : String) (prev : List JSValue) : List JSValue :=
  prev ++ [.obj [("name", .str file.name), ("type", .str file.type), ("url", .str url)]]

/-- The state `attachments` after the readers of the files in `loads` have
completed, in that order, each with the data URL paired with its file: every
completion runs `onload` on the attachments it finds. -/
def attachmentsAfter (prev : List JSValue) (loads : List (FileInfo × String)) : List JSValue :=
  loads.foldl (fun acc l => onload l.1 l.2 acc) prev

/-! ## Records with distinct keys -/

/-- The property names of the object are pairwise distinct, as those of every
JavaScript object are. -/
def distinctKeys (o : JSObject) : Prop :=
  (o.map Prod.fst).Nodup

/-! ## Sample data -/

/-- A sample environment for `task:create`: the random text is the one printed
for the draw `0.12345600000000001`. -/
def sampleEnv : Env :=
  { now := 1700000000000, random36 := "0.4fzyo82mvyt", isoNow := "2023-11-14T22:13:20.000Z" }

/-- A sample record, as `task:create` builds them. -/
def sampleTask (id title column : String) : JSObject :=
  [("id", .str id), ("title", .str title), ("description", .str ""),
   ("priority", .str "Medium"), ("category", .str "Feature"), ("column", .str column),
   ("attachments", .arr []), ("createdAt", .str "2023-11-14T22:13:20.000Z")]

/-- A sample store of two records. -/
def sampleStore : Store :=
  [sampleTask "a-1" "First" "To Do", sampleTask "b-2" "Second" "In Progress"]

/-- A second sample environment: the clock of `sampleEnv` and another random
draw, `0.12345600000000023`, whose text differs from the first one after its
eleventh character. -/
def sampleEnv2 : Env :=
  { now := 1700000000000, random36 := "0.4fzyo82mvzm", isoNow := "2023-11-14T22:13:20.000Z" }

/-- A third sample environment, one millisecond after `sampleEnv`. -/
def sampleEnv3 : Env :=
  { now := 1700000000001, random36 := "0.4fzyo82mvyt", isoNow := "2023-11-14T22:13:20.001Z" }

/-! ## Numbers and the progress chart: `TaskProgressChart.jsx` -/

/-- Rounding of a rational to the nearest integer, a tie going to the even
one. -/
def roundHalfEven (q : ℚ) : ℤ :=
  if q - ⌊q⌋ < 1 / 2 then ⌊q⌋
  else if 1 / 2 < q - ⌊q⌋ then ⌊q⌋ + 1
  else if ⌊q⌋ % 2 = 0 then ⌊q⌋ else ⌊q⌋ + 1

/-- The exponent of the spacing of the doubles around `q`: a double has 53
significant bits, and below the normal range the spacing stays at `2 ^ -1074`. -/
def ulpExp (q : ℚ) : ℤ :=
  max (Int.log 2 |q|) (-1022) - 52

/-- The double nearest to the exact value `q` (round to nearest, ties to even),
for a `q` below the overflow threshold: the result of one arithmetic operation
on numbers whose exact result is `q`. -/
def toDouble (q : ℚ) : ℚ :=
  roundHalfEven (q / 2 ^ ulpExp q) * 2 ^ ulpExp q

/-- The operator `/` on two numbers, the divisor not zero. -/
def jsDiv (a b : ℚ) : ℚ :=
  toDouble (a / b)

/-- The operator `*` on two numbers. -/
def jsMul (a b : ℚ) : ℚ :=
  toDouble (a * b)

/-- The function `Math.round`: the nearest integer, a tie going up. -/
def mathRound (x : ℚ) : ℤ :=
  ⌊x + 1 / 2⌋

/-- The constant `doneTasks` of `TaskProgressChart`. -/
def doneTasks (tasks : Store) : Nat :=
  (tasks.filter (fun t => strictEq (t.get "column") (.str "Done"))).length

/-- The constant `completionPercentage` of `TaskProgressChart`. -/
def completionPercentage (tasks : Store) : ℤ :=
  if tasks.length > 0 then mathRound (jsMul (jsDiv (doneTasks tasks) tasks.length) 100) else 0

/-- What `TaskProgressChart` renders: the message for an empty list, or the
percentage line, the detail line and the data of the bar chart. -/
inductive ChartView where
  | noTasks (message : String) : ChartView
  | progress (percentage : String) (detail : String) (data : List (String × Nat)) : ChartView

/-- The component `TaskProgressChart`. -/
def TaskProgressChart (tasks : Store) : ChartView :=
  if tasks.length = 0 then .noTasks "No tasks yet. Add tasks to see progress."
  else
    .progress (toString (completionPercentage tasks) ++ "% Complete")
      (toString (doneTasks tasks) ++ " of " ++ toString tasks.length ++ " tasks done")
      [("To Do", (tasks.filter (fun t => strictEq (t.get "column") (.str "To Do"))).length),
       ("In Progress",
        (tasks.filter (fun t => strictEq (t.get "column") (.str "In Progress"))).length),
       ("Done", (tasks.filter (fun t => strictEq (t.get "column") (.str "Done"))).length)]

/-- A sample task list: `done` tasks in the column "Done" followed by `open_`
tasks in the column "To Do". -/
def boardOf (done open_ : Nat) : Store :=
  List.replicate done (sampleTask "d-1" "Finished" "Done")
    ++ List.replicate open_ (sampleTask "t-1" "Waiting" "To Do")

/-! ## Reading base 36 back -/

/-- The value of a base-36 digit character. -/
def val36 (c : Char) : Nat :=
  if c.toNat < 58 then c.toNat - 48 else c.toNat - 87

/-- The number a list of base-36 digits denotes, most significant digit
first. -/
def fromDigits36 (cs : List Char) : Nat :=
  cs.foldl (fun acc c => acc * 36 + val36 c) 0

/-- The id a request aims at, if it aims at one: `id` of an update, `taskId` of
a move, the payload of a delete. -/
def targetOf : Request → Option JSValue
  | .update updatedTask => some (propOf updatedTask "id")
  | .move payload => some (propOf payload "taskId")
  | .delete taskId => some taskId
  | _ => none

/-! ## Basic facts about the value model -/

theorem strictEq_eq {a b : JSValue} (h : strictEq a b = true) : a = b := by
  cases a <;> cases b <;> simp_all [strictEq]

theorem lookupProp_overwriteProp (o : JSObject) (key k : String) (v : JSValue) :
    lookupProp (overwriteProp o key v) k
      = if key = k then (lookupProp o k).map (fun _ => v) else lookupProp o k := by
  induction o with
  | nil => simp [overwriteProp, lookupProp]
  | cons kv rest ih =>
    obtain ⟨k0, w⟩ := kv
    simp only [overwriteProp, lookupProp, ih]
    by_cases hk : key = k
    · subst hk
      by_cases h0 : k0 = key
      · cases lookupProp rest key <;> simp [h0]
      · cases lookupProp rest key <;> simp [h0]
    · by_cases h0 : k0 = key
      · cases lookupProp rest k <;> simp [h0, hk]
      · cases lookupProp rest k <;> simp [h0, hk]

theorem lookupProp_append_single (o : JSObject) (key k : String) (v : JSValue) :
    lookupProp (o ++ [(key, v)]) k = if key = k then some v else lookupProp o k := by
  induction o with
  | nil => simp [lookupProp]
  | cons kv rest ih =>
    obtain ⟨k0, w⟩ := kv
    show (match lookupProp (rest ++ [(key, v)]) k with
          | some u => some u
          | none => if k0 = k then some w else none) = _
    rw [ih]
    by_cases hk : key = k
    · simp [hk]
    · simp only [if_neg hk, lookupProp]

theorem lookupProp_setProp (o : JSObject) (key k : String) (v : JSValue) :
    lookupProp (setProp o key v) k = if key = k then some v else lookupProp o k := by
  unfold setProp hasProp
  by_cases hk : key = k
  · subst hk
    cases hl : lookupProp o key with
    | none => simp [lookupProp_append_single]
    | some w => simp [lookupProp_overwriteProp, hl]
  · cases hl : lookupProp o key with
    | none => simp [lookupProp_append_single, hk]
    | some w => simp [lookupProp_overwriteProp, hk]

theorem lookupProp_foldl_setProp (ps base : JSObject) (k : String) :
    lookupProp (ps.foldl (fun acc kv => setProp acc kv.1 kv.2) base) k
      = (lookupProp ps k).orElse (fun _ => lookupProp base k) := by
  induction ps generalizing base with
  | nil => simp [lookupProp]
  | cons kv rest ih =>
    obtain ⟨k0, w⟩ := kv
    simp only [List.foldl_cons, ih, lookupProp, lookupProp_setProp]
    cases lookupProp rest k with
    | some u => simp
    | none =>
      by_cases h0 : k0 = k
      · simp [h0]
      · simp [h0]

theorem lookupProp_spread (base : JSObject) (v : JSValue) (k : String) :
    lookupProp (spread base v) k
      = (lookupProp (ownProps v) k).orElse (fun _ => lookupProp base k) :=
  lookupProp_foldl_setProp (ownProps v) base k

theorem lookupProp_copy (t : JSObject) (k : String) :
    lookupProp (spread [] (.obj t)) k = lookupProp t k := by
  rw [lookupProp_spread]
  simp only [ownProps, lookupProp]
  cases lookupProp t k <;> simp

theorem getProp_eq_propOf {p : JSValue} (h1 : p ≠ .undefined) (h2 : p ≠ .null) (key : String) :
    getProp p key = .ok (propOf p key) := by
  cases p <;> simp_all [getProp, propOf] <;> split <;> simp_all

theorem newTask_present (env : Env) {p : JSValue} (h1 : p ≠ .undefined) (h2 : p ≠ .null) :
    newTask env p = .ok
      [("id", .str (generateId env)),
       ("title", jsOr (propOf p "title") (.str "Untitled Task")),
       ("description", jsOr (propOf p "description") (.str "")),
       ("priority", jsOr (propOf p "priority") (.str "Medium")),
       ("category", jsOr (propOf p "category") (.str "Feature")),
       ("column", jsOr (propOf p "column") (.str "To Do")),
       ("attachments", jsOr (propOf p "attachments") (.arr [])),
       ("createdAt", .str env.isoNow)] := by
  simp only [newTask, getProp_eq_propOf h1 h2, bind, Except.bind, pure, Except.pure]

theorem jsOr_of_truthy {a b : JSValue} (h : truthy a = true) : jsOr a b = a := by
  simp [jsOr, h]

/-! ## `findIndex` -/

theorem findIndex_none_of_all_false {pred : JSObject → Except JSError Bool} {s : Store}
    (h : ∀ t ∈ s, pred t = .ok false) : findIndex pred s = .ok none := by
  induction s with
  | nil => rfl
  | cons t rest ih =>
    have ht : pred t = .ok false := h t (List.mem_cons_self _ _)
    have hr : findIndex pred rest = .ok none :=
      ih (fun u hu => h u (List.mem_cons_of_mem _ hu))
    simp [findIndex, ht, hr]

theorem findIndex_some_of_first {pred : JSObject → Except JSError Bool} {s : Store} {i : Nat}
    {t : JSObject} (hi : s[i]? = some t) (ht : pred t = .ok true)
    (hlt : ∀ j u, j < i → s[j]? = some u → pred u = .ok false) :
    findIndex pred s = .ok (some i) := by
  induction s generalizing i with
  | nil => simp at hi
  | cons a rest ih =>
    cases i with
    | zero =>
      simp only [List.getElem?_cons_zero, Option.some.injEq] at hi
      subst hi
      simp [findIndex, ht]
    | succ n =>
      have ha : pred a = .ok false := hlt 0 a (Nat.succ_pos n) (by simp)
      have hn : rest[n]? = some t := by simpa using hi
      have hr : findIndex pred rest = .ok (some n) :=
        ih hn (fun j u hj hu => hlt (j + 1) u (Nat.succ_lt_succ hj) (by simpa using hu))
      simp [findIndex, ha, hr]

theorem findIndex_some_spec {pred : JSObject → Except JSError Bool} {s : Store} {i : Nat}
    (h : findIndex pred s = .ok (some i)) :
    (∃ t, s[i]? = some t ∧ pred t = .ok true)
      ∧ ∀ j u, j < i → s[j]? = some u → pred u = .ok false := by
  induction s generalizing i with
  | nil => simp [findIndex] at h
  | cons a rest ih =>
    simp only [findIndex] at h
    cases ha : pred a with
    | error e => simp [ha] at h
    | ok b =>
      cases b with
      | true =>
        simp only [ha, Except.ok.injEq, Option.some.injEq] at h
        subst h
        exact ⟨⟨a, by simp, ha⟩, fun j u hj => absurd hj (Nat.not_lt_zero j)⟩
      | false =>
        simp only [ha] at h
        cases hr : findIndex pred rest with
        | error e => simp [hr] at h
        | ok r =>
          cases r with
          | none => simp [hr] at h
          | some n =>
            simp only [hr, Except.ok.injEq, Option.some.injEq] at h
            subst h
            obtain ⟨⟨t, ht, hp⟩, hfirst⟩ := ih hr
            refine ⟨⟨t, by simpa using ht, hp⟩, ?_⟩
            intro j u hj hu
            cases j with
            | zero =>
              simp only [List.getElem?_cons_zero, Option.some.injEq] at hu
              subst hu
              exact ha
            | succ m =>
              exact hfirst m u (Nat.lt_of_succ_lt_succ hj) (by simpa using hu)

theorem map_modify_of_fixed {α β : Type} (g : α → β) (f : α → α) (l : List α) (i : Nat)
    (h : ∀ a, l[i]? = some a → g (f a) = g a) :
    (l.modify f i).map g = l.map g := by
  induction l generalizing i with
  | nil => simp
  | cons a rest ih =>
    cases i with
    | zero =>
      have := h a (by simp)
      simp [this]
    | succ n =>
      have := ih n (fun b hb => h b (by simpa using hb))
      simp [this]

/-! ## The handlers, case by case -/

theorem taskCreate_present (env : Env) (tasks : Store) {p : JSValue}
    (h1 : p ≠ .undefined) (h2 : p ≠ .null) :
    ∃ task, newTask env p = .ok task
      ∧ taskCreate env tasks p
          = { tasks := tasks ++ [task], emitted := [.all (tasks ++ [task])], error := none } := by
  refine ⟨_, newTask_present env h1 h2, ?_⟩
  simp only [taskCreate, newTask_present env h1 h2]

theorem updatePred_eq {updatedTask pid : JSValue} (hid : getProp updatedTask "id" = .ok pid)
    (t : JSObject) :
    (getProp updatedTask "id").map (strictEq (t.get "id")) = .ok (strictEq (t.get "id") pid) := by
  rw [hid]; rfl

theorem taskUpdate_of_match {tasks : Store} {updatedTask pid : JSValue} {i : Nat} {old : JSObject}
    (hid : getProp updatedTask "id" = .ok pid)
    (hi : tasks[i]? = some old)
    (hmatch : strictEq (old.get "id") pid = true)
    (hfirst : ∀ j t, j < i → tasks[j]? = some t → strictEq (t.get "id") pid = false) :
    taskUpdate tasks updatedTask
      = { tasks := tasks.modify (fun t => spread (spread [] (.obj t)) updatedTask) i,
          emitted := [.all (tasks.modify (fun t => spread (spread [] (.obj t)) updatedTask) i)],
          error := none } := by
  have hf : findIndex (fun t => (getProp updatedTask "id").map (strictEq (t.get "id"))) tasks
      = .ok (some i) := by
    apply findIndex_some_of_first hi
    · rw [updatePred_eq hid, hmatch]
    · intro j u hj hu
      rw [updatePred_eq hid, hfirst j u hj hu]
  simp only [taskUpdate, hf]

theorem taskUpdate_cases (tasks : Store) (updatedTask : JSValue) :
    ((taskUpdate tasks updatedTask).tasks = tasks ∧ (taskUpdate tasks updatedTask).emitted = [])
    ∨ ∃ i old pid, getProp updatedTask "id" = .ok pid ∧ tasks[i]? = some old
        ∧ strictEq (old.get "id") pid = true
        ∧ (∀ j t, j < i → tasks[j]? = some t → strictEq (t.get "id") pid = false)
        ∧ taskUpdate tasks updatedTask
          = { tasks := tasks.modify (fun t => spread (spread [] (.obj t)) updatedTask) i,
              emitted := [.all (tasks.modify (fun t => spread (spread [] (.obj t)) updatedTask) i)],
              error := none } := by
  cases hf : findIndex (fun t => (getProp updatedTask "id").map (strictEq (t.get "id"))) tasks with
  | error e => left; simp [taskUpdate, hf]
  | ok r =>
    cases r with
    | none => left; simp [taskUpdate, hf]
    | some i =>
      right
      obtain ⟨⟨old, hi, hp⟩, hfirst⟩ := findIndex_some_spec hf
      cases hid : getProp updatedTask "id" with
      | error e => simp [hid, Except.map] at hp
      | ok pid =>
        have hm : strictEq (old.get "id") pid = true := by
          simpa [hid, Except.map] using hp
        have hfirst2 : ∀ j t, j < i → tasks[j]? = some t → strictEq (t.get "id") pid = false := by
          intro j t hj ht
          have := hfirst j t hj ht
          simpa [hid, Except.map] using this
        exact ⟨i, old, pid, rfl, hi, hm, hfirst2, taskUpdate_of_match hid hi hm hfirst2⟩

theorem lookupProp_merged (old : JSObject) (updatedTask : JSValue) (key : String) :
    lookupProp (spread (spread [] (.obj old)) updatedTask) key
      = (lookupProp (ownProps updatedTask) key).orElse (fun _ => lookupProp old key) := by
  rw [lookupProp_spread, lookupProp_copy]

theorem getProp_eq_get_ownProps {p v : JSValue} {key : String} (h : getProp p key = .ok v)
    (hk : key ≠ "length") : JSObject.get (ownProps p) key = v := by
  cases p <;> simp_all [getProp]

theorem merged_id_eq {old : JSObject} {updatedTask pid : JSValue}
    (hid : getProp updatedTask "id" = .ok pid) (hmatch : strictEq (old.get "id") pid = true) :
    (spread (spread [] (.obj old)) updatedTask).get "id" = old.get "id" := by
  have hp : JSObject.get (ownProps updatedTask) "id" = pid :=
    getProp_eq_get_ownProps hid (by decide)
  have he : old.get "id" = pid := strictEq_eq hmatch
  unfold JSObject.get at hp he ⊢
  rw [lookupProp_merged]
  cases hl : lookupProp (ownProps updatedTask) "id" with
  | none => simp
  | some w =>
    rw [hl] at hp
    simp only [Option.getD_some] at hp
    simp [hp, he]

theorem taskUpdate_map_id (tasks : Store) (updatedTask : JSValue) :
    (taskUpdate tasks updatedTask).tasks.map (fun t => t.get "id")
      = tasks.map (fun t => t.get "id") := by
  rcases taskUpdate_cases tasks updatedTask with ⟨h, _⟩ | ⟨i, old, pid, hid, hi, hm, _, heq⟩
  · rw [h]
  · rw [heq]
    apply map_modify_of_fixed
    intro a ha
    rw [hi] at ha
    cases ha
    exact merged_id_eq hid hm

theorem lookupProp_setProp_ne (o : JSObject) {key k : String} (v : JSValue) (h : k ≠ key) :
    lookupProp (setProp o key v) k = lookupProp o k := by
  rw [lookupProp_setProp, if_neg (fun e => h e.symm)]

theorem get_setProp_self (o : JSObject) (key : String) (v : JSValue) :
    (setProp o key v).get key = v := by
  simp [JSObject.get, lookupProp_setProp]

theorem get_setProp_ne (o : JSObject) {key k : String} (v : JSValue) (h : k ≠ key) :
    (setProp o key v).get k = o.get k := by
  simp [JSObject.get, lookupProp_setProp_ne o v h]

theorem taskMove_of_match {tasks : Store} {payload taskId newColumn : JSValue} {i : Nat}
    {old : JSObject}
    (h1 : getProp payload "taskId" = .ok taskId)
    (h2 : getProp payload "newColumn" = .ok newColumn)
    (hm : FirstMatch tasks taskId i old) :
    taskMove tasks payload
      = { tasks := tasks.modify (fun t => setProp t "column" newColumn) i,
          emitted := [.all (tasks.modify (fun t => setProp t "column" newColumn) i)],
          error := none } := by
  obtain ⟨hi, hmatch, hfirst⟩ := hm
  have hf : findIndex (fun t => .ok (strictEq (t.get "id") taskId)) tasks = .ok (some i) := by
    apply findIndex_some_of_first hi
    · rw [hmatch]
    · intro j u hj hu
      rw [hfirst j u hj hu]
  simp only [taskMove, h1, h2, hf]

theorem taskMove_cases (tasks : Store) (payload : JSValue) :
    ((taskMove tasks payload).tasks = tasks ∧ (taskMove tasks payload).emitted = [])
    ∨ ∃ i old taskId newColumn, getProp payload "taskId" = .ok taskId
        ∧ getProp payload "newColumn" = .ok newColumn
        ∧ FirstMatch tasks taskId i old
        ∧ taskMove tasks payload
          = { tasks := tasks.modify (fun t => setProp t "column" newColumn) i,
              emitted := [.all (tasks.modify (fun t => setProp t "column" newColumn) i)],
              error := none } := by
  cases h1 : getProp payload "taskId" with
  | error e => left; simp [taskMove, h1]
  | ok taskId =>
    cases h2 : getProp payload "newColumn" with
    | error e => left; simp [taskMove, h1, h2]
    | ok newColumn =>
      cases hf : findIndex (fun t => .ok (strictEq (t.get "id") taskId)) tasks with
      | error e => left; simp [taskMove, h1, h2, hf]
      | ok r =>
        cases r with
        | none => left; simp [taskMove, h1, h2, hf]
        | some i =>
          right
          obtain ⟨⟨old, hi, hp⟩, hfirst⟩ := findIndex_some_spec hf
          have hm : FirstMatch tasks taskId i old :=
            ⟨hi, by simpa using hp, fun j t hj ht => by simpa using hfirst j t hj ht⟩
          exact ⟨i, old, taskId, newColumn, rfl, rfl, hm, taskMove_of_match h1 h2 hm⟩

theorem taskMove_map_id (tasks : Store) (payload : JSValue) :
    (taskMove tasks payload).tasks.map (fun t => t.get "id")
      = tasks.map (fun t => t.get "id") := by
  rcases taskMove_cases tasks payload with ⟨h, _⟩ | ⟨i, old, taskId, newColumn, _, _, _, heq⟩
  · rw [h]
  · rw [heq]
    apply map_modify_of_fixed
    intro a _
    exact get_setProp_ne a newColumn (by decide)

/-! ## Reachable stores carry string ids -/

theorem idsAreStrings_iff (tasks : Store) :
    idsAreStrings tasks = true ↔ ∀ t ∈ tasks, ∃ s, t.get "id" = .str s := by
  unfold idsAreStrings
  rw [List.all_eq_true]
  constructor
  · intro h t ht
    have := h t ht
    unfold hasStringId at this
    split at this
    · exact ⟨_, by assumption⟩
    · cases this
  · intro h t ht
    obtain ⟨s, hs⟩ := h t ht
    simp [hasStringId, hs]

theorem idsAreStrings_of_map_id {a b : Store}
    (h : a.map (fun t => t.get "id") = b.map (fun t => t.get "id"))
    (hb : idsAreStrings b = true) : idsAreStrings a = true := by
  rw [idsAreStrings_iff] at hb ⊢
  intro t ht
  have hmem : t.get "id" ∈ a.map (fun t => t.get "id") := List.mem_map_of_mem _ ht
  rw [h] at hmem
  obtain ⟨u, hu, hue⟩ := List.mem_map.1 hmem
  obtain ⟨s, hs⟩ := hb u hu
  exact ⟨s, by rw [← hue]; exact hs⟩

theorem newTask_hasStringId {env : Env} {p : JSValue} {task : JSObject}
    (h : newTask env p = .ok task) : hasStringId task = true := by
  cases p with
  | undefined => simp [newTask, getProp, bind, Except.bind] at h
  | null => simp [newTask, getProp, bind, Except.bind] at h
  | bool b =>
    rw [newTask_present env (by simp) (by simp)] at h; cases h
    simp [hasStringId, JSObject.get, lookupProp]
  | num n =>
    rw [newTask_present env (by simp) (by simp)] at h; cases h
    simp [hasStringId, JSObject.get, lookupProp]
  | str s =>
    rw [newTask_present env (by simp) (by simp)] at h; cases h
    simp [hasStringId, JSObject.get, lookupProp]
  | arr xs =>
    rw [newTask_present env (by simp) (by simp)] at h; cases h
    simp [hasStringId, JSObject.get, lookupProp]
  | obj ps =>
    rw [newTask_present env (by simp) (by simp)] at h; cases h
    simp [hasStringId, JSObject.get, lookupProp]

theorem handle_idsAreStrings (tasks : Store) (r : Request) (h : idsAreStrings tasks = true) :
    idsAreStrings (handle tasks r).tasks = true := by
  cases r with
  | create env taskData =>
    simp only [handle, taskCreate]
    cases hn : newTask env taskData with
    | error e => simpa using h
    | ok task =>
      have := newTask_hasStringId hn
      simp only [idsAreStrings, List.all_append, List.all_cons, List.all_nil, Bool.and_true,
        Bool.and_eq_true] at h ⊢
      exact ⟨h, this⟩
  | update updatedTask => exact idsAreStrings_of_map_id (taskUpdate_map_id tasks updatedTask) h
  | move payload => exact idsAreStrings_of_map_id (taskMove_map_id tasks payload) h
  | delete taskId =>
    simp only [handle, taskDelete]
    rw [idsAreStrings_iff] at h ⊢
    intro t ht
    exact h t (List.mem_of_mem_filter ht)
  | reset => rfl

theorem run_idsAreStrings (tasks : Store) (reqs : List Request) (h : idsAreStrings tasks = true) :
    idsAreStrings (run tasks reqs) = true := by
  induction reqs generalizing tasks with
  | nil => exact h
  | cons r rest ih =>
    have hstep := handle_idsAreStrings tasks r h
    cases he : (handle tasks r).error with
    | some e => simp only [run, he]; exact hstep
    | none => simp only [run, he]; exact ih _ hstep

theorem reachable_idsAreStrings (reqs : List Request) : idsAreStrings (run [] reqs) = true :=
  run_idsAreStrings [] reqs rfl

/-! ## Creation -/

/-- C1: a `task:create` whose payload supplies only a non-empty title `t`
appends exactly one record with that title, priority "Medium", category
"Feature", column "To Do", an empty description and no attachments; from the
empty store the result has exactly one record. -/
theorem taskCreate_title_only (env : Env) (tasks : Store) (t : String) (ht : t ≠ "") :
    (taskCreate env tasks (.obj [("title", .str t)])).tasks
        = tasks ++ [[("id", .str (generateId env)), ("title", .str t), ("description", .str ""),
                     ("priority", .str "Medium"), ("category", .str "Feature"),
                     ("column", .str "To Do"), ("attachments", .arr []),
                     ("createdAt", .str env.isoNow)]]
      ∧ (taskCreate env [] (.obj [("title", .str t)])).tasks.length = 1
      ∧ (taskCreate env tasks (.obj [("title", .str t)])).error = none := by
  have hn : newTask env (.obj [("title", .str t)]) = .ok
      [("id", .str (generateId env)), ("title", .str t), ("description", .str ""),
       ("priority", .str "Medium"), ("category", .str "Feature"),
       ("column", .str "To Do"), ("attachments", .arr []),
       ("createdAt", .str env.isoNow)] := by
    rw [newTask_present env (by simp) (by simp)]
    simp [propOf, getProp, ownProps, JSObject.get, lookupProp, jsOr, truthy, ht]
  refine ⟨?_, ?_, ?_⟩ <;> simp [taskCreate, hn]

theorem taskCreate_title_only_witness :
    "A" ≠ ""
      ∧ (taskCreate sampleEnv [] (.obj [("title", .str "A")])).tasks
          = [] ++ [[("id", .str (generateId sampleEnv)), ("title", .str "A"),
                    ("description", .str ""), ("priority", .str "Medium"),
                    ("category", .str "Feature"), ("column", .str "To Do"),
                    ("attachments", .arr []), ("createdAt", .str sampleEnv.isoNow)]] :=
  ⟨by decide, (taskCreate_title_only sampleEnv [] "A" (by decide)).1⟩

/-- C2, as stated, fails: with the payload `null` nothing is appended, and a
field that the payload supplies with the value `0` is not copied but takes its
default. -/
theorem taskCreate_not_every_payload :
    (taskCreate sampleEnv sampleStore .null).tasks = sampleStore
      ∧ (taskCreate sampleEnv sampleStore .null).tasks.length ≠ sampleStore.length + 1
      ∧ getProp (.obj [("title", .str "A"), ("priority", .num 0)]) "priority" = .ok (.num 0)
      ∧ (taskCreate sampleEnv []
            (.obj [("title", .str "A"), ("priority", .num 0)])).tasks.map
          (fun t => t.get "priority") = [.str "Medium"] :=
  ⟨rfl, by decide, rfl, rfl⟩

/-- C2, amended: a `task:create` with a payload other than `undefined` and
`null` appends exactly one record at the end: the length grows by one, the old
records stay in front unchanged, every field of the six that the payload
supplies with a truthy value is copied into the new record, and every field it
supplies with a falsy value takes its default. -/
theorem taskCreate_appends (env : Env) (tasks : Store) (p : JSValue)
    (h1 : p ≠ .undefined) (h2 : p ≠ .null) :
    ∃ task, (taskCreate env tasks p).tasks = tasks ++ [task]
      ∧ (taskCreate env tasks p).tasks.length = tasks.length + 1
      ∧ (taskCreate env tasks p).tasks.take tasks.length = tasks
      ∧ (∀ key ∈ ["title", "description", "priority", "category", "column", "attachments"],
          ∀ v, getProp p key = .ok v → truthy v = true → task.get key = v)
      ∧ ∀ kd ∈ [("title", JSValue.str "Untitled Task"), ("description", .str ""),
            ("priority", .str "Medium"), ("category", .str "Feature"),
            ("column", .str "To Do"), ("attachments", .arr [])],
          ∀ v, getProp p kd.1 = .ok v → truthy v = false → task.get kd.1 = kd.2 := by
  obtain ⟨task, hn, heq⟩ := taskCreate_present env tasks h1 h2
  refine ⟨task, by rw [heq], by rw [heq]; simp, by rw [heq]; simp, ?_, ?_⟩
  · intro key hkey v hv htr
    have hv2 : propOf p key = v := by simp [propOf, hv]
    rw [newTask_present env h1 h2] at hn
    cases hn
    simp only [List.mem_cons, List.mem_singleton, List.not_mem_nil, or_false] at hkey
    rcases hkey with h | h | h | h | h | h <;> subst h <;>
      simp [JSObject.get, lookupProp, hv2, jsOr_of_truthy htr]
  · intro kd hkd v hv hfalsy
    have hv2 : propOf p kd.1 = v := by simp [propOf, hv]
    rw [newTask_present env h1 h2] at hn
    cases hn
    simp only [List.mem_cons, List.mem_singleton, List.not_mem_nil, or_false] at hkd
    rcases hkd with h | h | h | h | h | h <;> subst h <;>
      simp only [] at hv2 <;> simp [JSObject.get, lookupProp, hv2, jsOr, hfalsy]

theorem taskCreate_appends_witness :
    ∃ task, (taskCreate sampleEnv sampleStore
        (.obj [("title", .str "T"), ("priority", .num 0)])).tasks = sampleStore ++ [task]
      ∧ (taskCreate sampleEnv sampleStore
          (.obj [("title", .str "T"), ("priority", .num 0)])).tasks.length
          = sampleStore.length + 1
      ∧ (taskCreate sampleEnv sampleStore
          (.obj [("title", .str "T"), ("priority", .num 0)])).tasks.take sampleStore.length
          = sampleStore
      ∧ (∀ key ∈ ["title", "description", "priority", "category", "column", "attachments"],
          ∀ v, getProp (.obj [("title", .str "T"), ("priority", .num 0)]) key = .ok v →
            truthy v = true → task.get key = v)
      ∧ ∀ kd ∈ [("title", JSValue.str "Untitled Task"), ("description", .str ""),
            ("priority", .str "Medium"), ("category", .str "Feature"),
            ("column", .str "To Do"), ("attachments", .arr [])],
          ∀ v, getProp (.obj [("title", .str "T"), ("priority", .num 0)]) kd.1 = .ok v →
            truthy v = false → task.get kd.1 = kd.2 :=
  taskCreate_appends sampleEnv sampleStore (.obj [("title", .str "T"), ("priority", .num 0)])
    (by simp) (by simp)

/-! ## Update -/

theorem sampleStore_firstMatch_b :
    FirstMatch sampleStore (.str "b-2") 1 (sampleTask "b-2" "Second" "In Progress") := by
  refine ⟨rfl, rfl, ?_⟩
  intro j t hj ht
  have hj0 : j = 0 := by omega
  subst hj0
  simp only [sampleStore, List.getElem?_cons_zero, Option.some.injEq] at ht
  subst ht
  rfl

/-- C3: when the payload of a `task:update` carries an id that matches a record,
the record at the first matching position becomes the field-wise merge of the
old record and the payload (a field the payload supplies takes the payload's
value, any other field keeps the old value); the other records, the number of
records and their order are unchanged. -/
theorem taskUpdate_merges (tasks : Store) (updatedTask pid : JSValue) (i : Nat) (old : JSObject)
    (hid : getProp updatedTask "id" = .ok pid) (hm : FirstMatch tasks pid i old) :
    ∃ merged, (taskUpdate tasks updatedTask).tasks[i]? = some merged
      ∧ (∀ key v, lookupProp (ownProps updatedTask) key = some v → lookupProp merged key = some v)
      ∧ (∀ key, lookupProp (ownProps updatedTask) key = none →
            lookupProp merged key = lookupProp old key)
      ∧ (taskUpdate tasks updatedTask).tasks.length = tasks.length
      ∧ ∀ j, j ≠ i → (taskUpdate tasks updatedTask).tasks[j]? = tasks[j]? := by
  obtain ⟨hi, hmatch, hfirst⟩ := hm
  rw [taskUpdate_of_match hid hi hmatch hfirst]
  refine ⟨spread (spread [] (.obj old)) updatedTask, ?_, ?_, ?_, ?_, ?_⟩
  · simp [hi]
  · intro key v hv
    rw [lookupProp_merged, hv]; rfl
  · intro key hv
    rw [lookupProp_merged, hv]; rfl
  · simp
  · intro j hj
    simp [List.getElem?_modify_ne _ _ (Ne.symm hj)]

theorem taskUpdate_merges_witness :
    ∃ merged,
      (taskUpdate sampleStore
          (.obj [("id", .str "b-2"), ("title", .str "Renamed")])).tasks[1]? = some merged
      ∧ (∀ key v, lookupProp (ownProps (.obj [("id", .str "b-2"), ("title", .str "Renamed")])) key
            = some v → lookupProp merged key = some v)
      ∧ (∀ key, lookupProp (ownProps (.obj [("id", .str "b-2"), ("title", .str "Renamed")])) key
            = none → lookupProp merged key
              = lookupProp (sampleTask "b-2" "Second" "In Progress") key)
      ∧ (taskUpdate sampleStore
          (.obj [("id", .str "b-2"), ("title", .str "Renamed")])).tasks.length = sampleStore.length
      ∧ ∀ j, j ≠ 1 →
          (taskUpdate sampleStore
            (.obj [("id", .str "b-2"), ("title", .str "Renamed")])).tasks[j]? = sampleStore[j]? :=
  taskUpdate_merges sampleStore (.obj [("id", .str "b-2"), ("title", .str "Renamed")])
    (.str "b-2") 1 (sampleTask "b-2" "Second" "In Progress") rfl sampleStore_firstMatch_b

/-- C4, as stated, fails: a `task:update` whose payload carries its own
`createdAt` replaces the stored one. -/
theorem taskUpdate_overwrites_createdAt :
    (sampleStore.map (fun t => t.get "createdAt"))
        = [.str "2023-11-14T22:13:20.000Z", .str "2023-11-14T22:13:20.000Z"]
      ∧ ((taskUpdate sampleStore
            (.obj [("id", .str "a-1"), ("createdAt", .str "1999-01-01T00:00:00.000Z")])).tasks.map
          (fun t => t.get "createdAt"))
        = [.str "1999-01-01T00:00:00.000Z", .str "2023-11-14T22:13:20.000Z"]
      ∧ JSValue.str "1999-01-01T00:00:00.000Z" ≠ JSValue.str "2023-11-14T22:13:20.000Z" :=
  ⟨rfl, rfl, by simp⟩

/-- C4, amended: a `task:update` whose payload matches a record and carries no
`createdAt` of its own leaves that record's `createdAt` as it was; a `createdAt`
carried by the payload becomes the record's `createdAt`. -/
theorem taskUpdate_createdAt (tasks : Store) (updatedTask pid : JSValue) (i : Nat)
    (old : JSObject)
    (hid : getProp updatedTask "id" = .ok pid) (hm : FirstMatch tasks pid i old) :
    ∃ merged, (taskUpdate tasks updatedTask).tasks[i]? = some merged
      ∧ (lookupProp (ownProps updatedTask) "createdAt" = none →
            merged.get "createdAt" = old.get "createdAt")
      ∧ (∀ v, lookupProp (ownProps updatedTask) "createdAt" = some v →
            merged.get "createdAt" = v) := by
  obtain ⟨hi, hmatch, hfirst⟩ := hm
  rw [taskUpdate_of_match hid hi hmatch hfirst]
  refine ⟨spread (spread [] (.obj old)) updatedTask, ?_, ?_, ?_⟩
  · simp [hi]
  · intro hv
    simp [JSObject.get, lookupProp_merged, hv]
  · intro v hv
    simp [JSObject.get, lookupProp_merged, hv]

theorem taskUpdate_createdAt_witness :
    ∃ merged,
      (taskUpdate sampleStore
          (.obj [("id", .str "b-2"), ("title", .str "Renamed")])).tasks[1]? = some merged
      ∧ (lookupProp (ownProps (.obj [("id", .str "b-2"), ("title", .str "Renamed")])) "createdAt"
            = none →
          merged.get "createdAt" = (sampleTask "b-2" "Second" "In Progress").get "createdAt")
      ∧ (∀ v, lookupProp (ownProps (.obj [("id", .str "b-2"), ("title", .str "Renamed")]))
            "createdAt" = some v → merged.get "createdAt" = v) :=
  taskUpdate_createdAt sampleStore (.obj [("id", .str "b-2"), ("title", .str "Renamed")])
    (.str "b-2") 1 (sampleTask "b-2" "Second" "In Progress") rfl sampleStore_firstMatch_b

/-- C5: a `task:update` never changes an id: whatever the payload, the sequence
of ids in the store after the update is the sequence of ids before it. -/
theorem taskUpdate_preserves_ids (tasks : Store) (updatedTask : JSValue) :
    (taskUpdate tasks updatedTask).tasks.map (fun t => t.get "id")
      = tasks.map (fun t => t.get "id") :=
  taskUpdate_map_id tasks updatedTask

/-- C6: a `task:update` whose payload has no id, or an id that is the id of no
record, leaves the store as it was, whatever else the payload carries.  (For a
payload without id the records are taken to carry string ids, as every record
of a reachable store does.) -/
theorem taskUpdate_unknown_id (tasks : Store) (updatedTask : JSValue)
    (h : (getProp updatedTask "id" = .ok .undefined ∧ idsAreStrings tasks = true)
        ∨ ∀ pid, getProp updatedTask "id" = .ok pid →
            ∀ t ∈ tasks, strictEq (t.get "id") pid = false) :
    (taskUpdate tasks updatedTask).tasks = tasks := by
  rcases taskUpdate_cases tasks updatedTask with ⟨hs, _⟩ | ⟨i, old, pid, hid, hi, hmatch, _, _⟩
  · exact hs
  · exfalso
    have hmem : old ∈ tasks := List.mem_iff_getElem?.2 ⟨i, hi⟩
    rcases h with ⟨hu, hwf⟩ | hno
    · rw [hid] at hu
      cases hu
      obtain ⟨s, hs⟩ := (idsAreStrings_iff tasks).1 hwf old hmem
      rw [hs] at hmatch
      simp [strictEq] at hmatch
    · rw [hno pid hid old hmem] at hmatch
      cases hmatch

theorem taskUpdate_unknown_id_witness :
    (taskUpdate sampleStore (.obj [("title", .str "Renamed")])).tasks = sampleStore :=
  taskUpdate_unknown_id sampleStore (.obj [("title", .str "Renamed")]) (Or.inl ⟨rfl, rfl⟩)

/-! ## Move -/

/-- C7: when a record has id `x`, a `task:move` with `taskId` `x` and any string
`c` as `newColumn` gives the first record with id `x` the column `c` and leaves
all its other fields as they were; the other records, the length and the order
of the store are unchanged. -/
theorem taskMove_sets_column (tasks : Store) (x : JSValue) (c : String) (i : Nat)
    (old : JSObject) (hm : FirstMatch tasks x i old) :
    ∃ moved,
      (taskMove tasks (.obj [("taskId", x), ("newColumn", .str c)])).tasks[i]? = some moved
      ∧ moved.get "column" = .str c
      ∧ (∀ key, key ≠ "column" → lookupProp moved key = lookupProp old key)
      ∧ (taskMove tasks (.obj [("taskId", x), ("newColumn", .str c)])).tasks.length = tasks.length
      ∧ ∀ j, j ≠ i →
          (taskMove tasks (.obj [("taskId", x), ("newColumn", .str c)])).tasks[j]? = tasks[j]? := by
  have h1 : getProp (.obj [("taskId", x), ("newColumn", .str c)]) "taskId" = .ok x := by
    simp [getProp, ownProps, JSObject.get, lookupProp]
  have h2 : getProp (.obj [("taskId", x), ("newColumn", .str c)]) "newColumn" = .ok (.str c) := by
    simp [getProp, ownProps, JSObject.get, lookupProp]
  rw [taskMove_of_match h1 h2 hm]
  refine ⟨setProp old "column" (.str c), ?_, get_setProp_self _ _ _, ?_, ?_, ?_⟩
  · simp [hm.1]
  · intro key hkey
    exact lookupProp_setProp_ne old (.str c) hkey
  · simp
  · intro j hj
    simp [List.getElem?_modify_ne _ _ (Ne.symm hj)]

theorem taskMove_sets_column_witness :
    ∃ moved,
      (taskMove sampleStore
          (.obj [("taskId", .str "b-2"), ("newColumn", .str "Archive")])).tasks[1]? = some moved
      ∧ moved.get "column" = .str "Archive"
      ∧ (∀ key, key ≠ "column" →
          lookupProp moved key = lookupProp (sampleTask "b-2" "Second" "In Progress") key)
      ∧ (taskMove sampleStore
          (.obj [("taskId", .str "b-2"), ("newColumn", .str "Archive")])).tasks.length
          = sampleStore.length
      ∧ ∀ j, j ≠ 1 →
          (taskMove sampleStore
            (.obj [("taskId", .str "b-2"), ("newColumn", .str "Archive")])).tasks[j]?
            = sampleStore[j]? :=
  taskMove_sets_column sampleStore (.str "b-2") "Archive" 1
    (sampleTask "b-2" "Second" "In Progress") sampleStore_firstMatch_b

/-- C8: a `task:move` whose `taskId` is the id of no record leaves the store
as it was. -/
theorem taskMove_unknown_id (tasks : Store) (payload : JSValue)
    (h : ∀ taskId, getProp payload "taskId" = .ok taskId →
        ∀ t ∈ tasks, strictEq (t.get "id") taskId = false) :
    (taskMove tasks payload).tasks = tasks := by
  rcases taskMove_cases tasks payload with ⟨hs, _⟩ | ⟨i, old, taskId, _, h1, _, hm, _⟩
  · exact hs
  · exfalso
    have hmem : old ∈ tasks := List.mem_iff_getElem?.2 ⟨i, hm.1⟩
    have := hm.2.1
    rw [h taskId h1 old hmem] at this
    cases this

theorem taskMove_unknown_id_witness :
    (taskMove sampleStore (.obj [("taskId", .str "zz-9"), ("newColumn", .str "Done")])).tasks
      = sampleStore :=
  taskMove_unknown_id sampleStore (.obj [("taskId", .str "zz-9"), ("newColumn", .str "Done")])
    (by
      intro taskId hid t ht
      have h1 : getProp (.obj [("taskId", .str "zz-9"), ("newColumn", .str "Done")]) "taskId"
          = .ok (.str "zz-9") := rfl
      rw [h1] at hid
      cases hid
      simp only [sampleStore, List.mem_cons, List.mem_singleton, List.not_mem_nil, or_false] at ht
      rcases ht with rfl | rfl <;> rfl)

/-! ## Delete -/

/-- C9: after a `task:delete` of `d` no record of the store has id `d`, and the
store consists of exactly the old records whose id differs from `d`, in their
original relative order. -/
theorem taskDelete_removes (tasks : Store) (d : JSValue) :
    (∀ t ∈ (taskDelete tasks d).tasks, strictEq (t.get "id") d = false)
      ∧ (∀ s : String, d = .str s → ∀ t ∈ (taskDelete tasks d).tasks, t.get "id" ≠ .str s)
      ∧ (∀ t, t ∈ (taskDelete tasks d).tasks ↔ t ∈ tasks ∧ strictEq (t.get "id") d = false)
      ∧ (taskDelete tasks d).tasks = tasks.filter (fun t => !strictEq (t.get "id") d)
      ∧ List.Sublist (taskDelete tasks d).tasks tasks := by
  have hmem : ∀ t, t ∈ (taskDelete tasks d).tasks ↔ t ∈ tasks ∧ strictEq (t.get "id") d = false := by
    intro t
    simp [taskDelete, List.mem_filter]
  refine ⟨fun t ht => ((hmem t).1 ht).2, ?_, hmem, rfl, ?_⟩
  · intro s hs t ht hid
    have := ((hmem t).1 ht).2
    rw [hid, hs] at this
    simp [strictEq] at this
  · simp only [taskDelete]
    exact List.filter_sublist tasks

/-- C10: a `task:delete` of a `d` that is the id of no record raises no error,
leaves the store as it was, and still broadcasts one snapshot of that
unchanged store. -/
theorem taskDelete_unknown_id (tasks : Store) (d : JSValue)
    (h : ∀ t ∈ tasks, strictEq (t.get "id") d = false) :
    taskDelete tasks d = { tasks := tasks, emitted := [.all tasks], error := none } := by
  have hf : tasks.filter (fun t => !strictEq (t.get "id") d) = tasks := by
    apply List.filter_eq_self.2
    intro t ht
    simp [h t ht]
  simp only [taskDelete, hf]

theorem taskDelete_unknown_id_witness :
    taskDelete sampleStore (.str "zz-9")
      = { tasks := sampleStore, emitted := [.all sampleStore], error := none } :=
  taskDelete_unknown_id sampleStore (.str "zz-9")
    (by
      intro t ht
      simp only [sampleStore, List.mem_cons, List.mem_singleton, List.not_mem_nil, or_false] at ht
      rcases ht with rfl | rfl <;> rfl)

/-! ## The outcome of a request -/

theorem findIndex_none_spec {pred : JSObject → Except JSError Bool} {s : Store}
    (h : findIndex pred s = .ok none) : ∀ t ∈ s, pred t = .ok false := by
  induction s with
  | nil => intro t ht; cases ht
  | cons a rest ih =>
    simp only [findIndex] at h
    cases ha : pred a with
    | error e => simp [ha] at h
    | ok b =>
      cases b with
      | true => simp [ha] at h
      | false =>
        simp only [ha] at h
        cases hr : findIndex pred rest with
        | error e => simp [hr] at h
        | ok r =>
          cases r with
          | some n => simp [hr] at h
          | none =>
            intro t ht
            rcases List.mem_cons.1 ht with rfl | ht2
            · exact ha
            · exact ih hr t ht2

theorem propOf_of_getProp {p v : JSValue} {key : String} (h : getProp p key = .ok v) :
    propOf p key = v := by
  simp [propOf, h]

theorem present_iff (p : JSValue) : present p = true ↔ p ≠ .undefined ∧ p ≠ .null := by
  cases p <;> simp [present]

theorem getProp_error_of_absent {p : JSValue} (h : present p = false) (key : String) :
    getProp p key = .error .typeError := by
  cases p <;> simp_all [present, getProp]

theorem newTask_error_of_absent (env : Env) {p : JSValue} (h : present p = false) :
    newTask env p = .error .typeError := by
  simp [newTask, getProp_error_of_absent h, bind, Except.bind]

theorem newTask_ok_present {env : Env} {p : JSValue} {task : JSObject}
    (h : newTask env p = .ok task) : present p = true := by
  cases hp : present p with
  | true => rfl
  | false => rw [newTask_error_of_absent env hp] at h; cases h

theorem newTask_applied {env : Env} {p : JSValue} {task : JSObject}
    (h : newTask env p = .ok task) (tasks : Store) :
    Applied tasks (.create env p) (tasks ++ [task]) := by
  obtain ⟨h1, h2⟩ := (present_iff p).1 (newTask_ok_present h)
  rw [newTask_present env h1 h2] at h
  cases h
  refine ⟨_, rfl, ?_, ?_, ?_⟩
  · simp [JSObject.get, lookupProp]
  · simp [JSObject.get, lookupProp]
  · intro kd hkd
    simp only [createDefaults, List.mem_cons, List.mem_singleton, List.not_mem_nil,
      or_false] at hkd
    rcases hkd with h | h | h | h | h | h <;> subst h <;> simp [JSObject.get, lookupProp]

theorem taskCreate_outcome (env : Env) (tasks : Store) (p : JSValue) :
    (present p = false ∧ taskCreate env tasks p
        = { tasks := tasks, emitted := [], error := some .typeError })
    ∨ (present p = true ∧ ∃ task, newTask env p = .ok task ∧ taskCreate env tasks p
        = { tasks := tasks ++ [task], emitted := [.all (tasks ++ [task])], error := none }) := by
  cases hp : present p with
  | false =>
    left
    simp [taskCreate, newTask_error_of_absent env hp]
  | true =>
    right
    obtain ⟨h1, h2⟩ := (present_iff p).1 hp
    exact ⟨rfl, taskCreate_present env tasks h1 h2⟩

theorem handle_outcome (tasks : Store) (r : Request) :
    (∃ e, (handle tasks r).error = some e ∧ (handle tasks r).tasks = tasks
        ∧ (handle tasks r).emitted = [])
    ∨ ((handle tasks r).error = none ∧ targetKnown tasks r = false
        ∧ (handle tasks r).tasks = tasks ∧ (handle tasks r).emitted = [])
    ∨ ((handle tasks r).error = none ∧ targetKnown tasks r = true
        ∧ Applied tasks r (handle tasks r).tasks
        ∧ (handle tasks r).emitted = [.all (handle tasks r).tasks]) := by
  cases r with
  | create env taskData =>
    simp only [handle]
    rcases taskCreate_outcome env tasks taskData with ⟨_, h⟩ | ⟨_, task, hn, h⟩
    · left
      rw [h]
      exact ⟨_, rfl, rfl, rfl⟩
    · right; right
      rw [h]
      exact ⟨rfl, rfl, newTask_applied hn tasks, rfl⟩
  | update updatedTask =>
    simp only [handle]
    cases hf : findIndex (fun t => (getProp updatedTask "id").map (strictEq (t.get "id")))
        tasks with
    | error e =>
      left
      have ho : taskUpdate tasks updatedTask
          = { tasks := tasks, emitted := [], error := some e } := by
        simp only [taskUpdate, hf]
      rw [ho]
      exact ⟨e, rfl, rfl, rfl⟩
    | ok res =>
      cases res with
      | none =>
        right; left
        have ho : taskUpdate tasks updatedTask
            = { tasks := tasks, emitted := [], error := none } := by
          simp only [taskUpdate, hf]
        rw [ho]
        refine ⟨rfl, ?_, rfl, rfl⟩
        simp only [targetKnown, List.any_eq_false]
        intro t ht
        have hp := findIndex_none_spec hf t ht
        cases hid : getProp updatedTask "id" with
        | error e => simp [hid, Except.map] at hp
        | ok pid =>
          rw [propOf_of_getProp hid]
          simpa [hid, Except.map] using hp
      | some i =>
        right; right
        obtain ⟨⟨old, hi, hp⟩, hfirst⟩ := findIndex_some_spec hf
        cases hid : getProp updatedTask "id" with
        | error e => simp [hid, Except.map] at hp
        | ok pid =>
          have hm : strictEq (old.get "id") pid = true := by
            simpa [hid, Except.map] using hp
          have hfirst2 : ∀ j t, j < i → tasks[j]? = some t →
              strictEq (t.get "id") pid = false := by
            intro j t hj ht
            simpa [hid, Except.map] using hfirst j t hj ht
          rw [taskUpdate_of_match hid hi hm hfirst2]
          refine ⟨rfl, ?_, ?_, rfl⟩
          · simp only [targetKnown, List.any_eq_true]
            exact ⟨old, List.mem_iff_getElem?.2 ⟨i, hi⟩, by rw [propOf_of_getProp hid]; exact hm⟩
          · refine ⟨i, old, pid, spread (spread [] (.obj old)) updatedTask, hid,
              ⟨hi, hm, hfirst2⟩, by simp, by simp [hi], fun key => lookupProp_merged old _ key, ?_⟩
            intro j hj
            simp [List.getElem?_modify_ne _ _ (Ne.symm hj)]
  | move payload =>
    simp only [handle]
    cases h1 : getProp payload "taskId" with
    | error e =>
      left
      have ho : taskMove tasks payload = { tasks := tasks, emitted := [], error := some e } := by
        simp only [taskMove, h1]
      rw [ho]
      exact ⟨e, rfl, rfl, rfl⟩
    | ok taskId =>
      cases h2 : getProp payload "newColumn" with
      | error e =>
        left
        have ho : taskMove tasks payload
            = { tasks := tasks, emitted := [], error := some e } := by
          simp only [taskMove, h1, h2]
        rw [ho]
        exact ⟨e, rfl, rfl, rfl⟩
      | ok newColumn =>
        cases hf : findIndex (fun t => .ok (strictEq (t.get "id") taskId)) tasks with
        | error e =>
          left
          have ho : taskMove tasks payload
              = { tasks := tasks, emitted := [], error := some e } := by
            simp only [taskMove, h1, h2, hf]
          rw [ho]
          exact ⟨e, rfl, rfl, rfl⟩
        | ok res =>
          cases res with
          | none =>
            right; left
            have ho : taskMove tasks payload
                = { tasks := tasks, emitted := [], error := none } := by
              simp only [taskMove, h1, h2, hf]
            rw [ho]
            refine ⟨rfl, ?_, rfl, rfl⟩
            simp only [targetKnown, List.any_eq_false, propOf_of_getProp h1]
            intro t ht
            simpa using findIndex_none_spec hf t ht
          | some i =>
            right; right
            obtain ⟨⟨old, hi, hp⟩, hfirst⟩ := findIndex_some_spec hf
            have hm : FirstMatch tasks taskId i old :=
              ⟨hi, by simpa using hp, fun j t hj ht => by simpa using hfirst j t hj ht⟩
            rw [taskMove_of_match h1 h2 hm]
            refine ⟨rfl, ?_, ?_, rfl⟩
            · simp only [targetKnown, List.any_eq_true, propOf_of_getProp h1]
              exact ⟨old, List.mem_iff_getElem?.2 ⟨i, hi⟩, hm.2.1⟩
            · refine ⟨i, old, taskId, newColumn, setProp old "column" newColumn, h1, h2, hm,
                by simp, by simp [hi], get_setProp_self _ _ _,
                fun key hkey => lookupProp_setProp_ne old newColumn hkey, ?_⟩
              intro j hj
              simp [List.getElem?_modify_ne _ _ (Ne.symm hj)]
  | delete taskId =>
    right; right
    exact ⟨rfl, rfl, rfl, rfl⟩
  | reset =>
    right; right
    exact ⟨rfl, rfl, rfl, rfl⟩

/-! ## Broadcasts and sessions -/

theorem filter_deliveries_of_not_mem (l : List String) (s : String) (snapshot : Store)
    (h : s ∉ l) :
    ((l.map (fun x => (x, snapshot))).filter (fun d => d.1 == s)).map Prod.snd = [] := by
  induction l with
  | nil => rfl
  | cons a rest ih =>
    have ha : a ≠ s := fun e => h (e ▸ List.mem_cons_self _ _)
    have hr : s ∉ rest := fun hm => h (List.mem_cons_of_mem _ hm)
    simp [List.filter_cons, ha, ih hr]

theorem filter_deliveries_of_mem (l : List String) (s : String) (snapshot : Store)
    (hnd : l.Nodup) (h : s ∈ l) :
    ((l.map (fun x => (x, snapshot))).filter (fun d => d.1 == s)).map Prod.snd = [snapshot] := by
  induction l with
  | nil => cases h
  | cons a rest ih =>
    obtain ⟨hnot, hrest⟩ := List.nodup_cons.1 hnd
    by_cases ha : a = s
    · subst ha
      have := filter_deliveries_of_not_mem rest a snapshot hnot
      simp [List.filter_cons, this]
    · have hs : s ∈ rest := by
        rcases List.mem_cons.1 h with e | e
        · exact absurd e.symm ha
        · exact e
      simp [List.filter_cons, ha, ih hrest hs]

theorem received_all (sockets : List String) (s : String) (snapshot : Store)
    (hnd : sockets.Nodup) (h : s ∈ sockets) :
    received sockets [.all snapshot] s = [snapshot] := by
  simp only [received, deliveries, List.append_nil]
  exact filter_deliveries_of_mem sockets s snapshot hnd h

theorem handle_emitted (tasks : Store) (r : Request) :
    (handle tasks r).emitted = [] ∨ (handle tasks r).emitted = [.all (handle tasks r).tasks] := by
  rcases handle_outcome tasks r with ⟨_, _, _, h⟩ | ⟨_, _, _, h⟩ | ⟨_, _, _, h⟩
  · exact Or.inl h
  · exact Or.inl h
  · exact Or.inr h

/-- C11: whatever the store and the connected sockets, a `tasks:reset` from
any one of them leaves the store empty, and every connected socket, the sender
included, receives exactly one snapshot, the empty one. -/
theorem tasksReset_clears (sv : Server) (sender : String) (hs : sender ∈ sv.sockets)
    (hnd : sv.sockets.Nodup) :
    (step sv (.request sender .reset)).1.tasks = []
      ∧ (∀ s ∈ sv.sockets, received sv.sockets (step sv (.request sender .reset)).2 s = [[]])
      ∧ received sv.sockets (step sv (.request sender .reset)).2 sender = [[]] :=
  ⟨rfl, fun s h => received_all sv.sockets s [] hnd h, received_all sv.sockets sender [] hnd hs⟩

theorem tasksReset_clears_witness :
    (step { tasks := sampleStore, sockets := ["A", "B"] } (.request "A" .reset)).1.tasks = []
      ∧ (∀ s ∈ ["A", "B"],
          received ["A", "B"]
            (step { tasks := sampleStore, sockets := ["A", "B"] } (.request "A" .reset)).2 s
            = [[]])
      ∧ received ["A", "B"]
          (step { tasks := sampleStore, sockets := ["A", "B"] } (.request "A" .reset)).2 "A"
          = [[]] :=
  tasksReset_clears { tasks := sampleStore, sockets := ["A", "B"] } "A" (by decide) (by decide)

/-- C12, as stated, fails: an update and a move whose target id is unknown
complete without error and broadcast nothing. -/
theorem unknown_target_no_broadcast :
    (handle sampleStore (.update (.obj [("id", .str "zz-9"), ("title", .str "T")]))).error = none
      ∧ (handle sampleStore (.update (.obj [("id", .str "zz-9"), ("title", .str "T")]))).emitted
          = []
      ∧ (handle sampleStore
          (.move (.obj [("taskId", .str "zz-9"), ("newColumn", .str "Done")]))).error = none
      ∧ (handle sampleStore
          (.move (.obj [("taskId", .str "zz-9"), ("newColumn", .str "Done")]))).emitted = [] :=
  ⟨rfl, rfl, rfl, rfl⟩

/-- C12, amended: a request that completes without error makes exactly one
broadcast, of the store it leaves, when it is a create, a delete or a reset, or
an update or move whose target id is the id of a record; an update or move whose
target id is unknown makes none. -/
theorem handle_broadcasts (tasks : Store) (r : Request) (h : (handle tasks r).error = none) :
    (handle tasks r).emitted
      = if targetKnown tasks r then [.all (handle tasks r).tasks] else [] := by
  rcases handle_outcome tasks r with ⟨e, he, _, _⟩ | ⟨_, hk, _, hem⟩ | ⟨_, hk, _, hem⟩
  · rw [he] at h; cases h
  · rw [hk, hem]; rfl
  · rw [hk, hem]; rfl

theorem handle_broadcasts_witness :
    (handle sampleStore (.delete (.str "zz-9"))).emitted
      = if targetKnown sampleStore (.delete (.str "zz-9"))
        then [.all (handle sampleStore (.delete (.str "zz-9"))).tasks] else [] :=
  handle_broadcasts sampleStore (.delete (.str "zz-9")) rfl

/-- C13: every broadcast a mutation request makes carries the store as it is
after that request, and it delivers that store to every connected socket, the
sender included. -/
theorem broadcast_carries_new_store (sv : Server) (sender : String) (req : Request) (e : Emit)
    (he : e ∈ (step sv (.request sender req)).2) :
    e = .all (step sv (.request sender req)).1.tasks
      ∧ (∀ s ∈ sv.sockets, (s, (step sv (.request sender req)).1.tasks) ∈ deliveries sv.sockets e)
      ∧ ∀ d ∈ deliveries sv.sockets e, d.2 = (step sv (.request sender req)).1.tasks := by
  have hstep : (step sv (.request sender req)).2 = (handle sv.tasks req).emitted := rfl
  have htasks : (step sv (.request sender req)).1.tasks = (handle sv.tasks req).tasks := rfl
  rw [hstep] at he
  rw [htasks]
  have hall : e = .all (handle sv.tasks req).tasks := by
    rcases handle_emitted sv.tasks req with h | h
    · rw [h] at he; cases he
    · rw [h] at he
      exact List.mem_singleton.1 he
  refine ⟨hall, ?_, ?_⟩
  · intro s hs
    rw [hall]
    exact List.mem_map.2 ⟨s, hs, rfl⟩
  · intro d hd
    rw [hall] at hd
    obtain ⟨s, _, hsd⟩ := List.mem_map.1 hd
    rw [← hsd]

theorem broadcast_carries_new_store_witness :
    Emit.all [sampleTask "b-2" "Second" "In Progress"]
        = .all (step { tasks := sampleStore, sockets := ["A", "B"] }
            (.request "A" (.delete (.str "a-1")))).1.tasks
      ∧ (∀ s ∈ ["A", "B"],
          (s, (step { tasks := sampleStore, sockets := ["A", "B"] }
              (.request "A" (.delete (.str "a-1")))).1.tasks)
            ∈ deliveries ["A", "B"] (.all [sampleTask "b-2" "Second" "In Progress"]))
      ∧ ∀ d ∈ deliveries ["A", "B"] (.all [sampleTask "b-2" "Second" "In Progress"]),
          d.2 = (step { tasks := sampleStore, sockets := ["A", "B"] }
              (.request "A" (.delete (.str "a-1")))).1.tasks :=
  broadcast_carries_new_store { tasks := sampleStore, sockets := ["A", "B"] } "A"
    (.delete (.str "a-1")) (.all [sampleTask "b-2" "Second" "In Progress"])
    (List.Mem.head _)

/-- C14: a connecting socket leaves the store as it is and is sent the current
store as one snapshot, which no other socket receives; a disconnecting socket
leaves the store as it is and nothing is sent to anyone. -/
theorem lifecycle_keeps_store (sv : Server) (socketId : String) :
    (step sv (.connect socketId)).1.tasks = sv.tasks
      ∧ (step sv (.connect socketId)).2 = [.one socketId sv.tasks]
      ∧ received (step sv (.connect socketId)).1.sockets (step sv (.connect socketId)).2 socketId
          = [sv.tasks]
      ∧ (∀ s, s ≠ socketId →
          received (step sv (.connect socketId)).1.sockets (step sv (.connect socketId)).2 s = [])
      ∧ (step sv (.disconnect socketId)).1.tasks = sv.tasks
      ∧ (step sv (.disconnect socketId)).2 = []
      ∧ ∀ s, received (step sv (.disconnect socketId)).1.sockets
          (step sv (.disconnect socketId)).2 s = [] := by
  refine ⟨rfl, rfl, ?_, ?_, rfl, rfl, fun s => rfl⟩
  · simp [step, received, deliveries]
  · intro s hs
    simp [step, received, deliveries, Ne.symm hs]

/-! ## Sequences of requests -/

theorem serve_tasks (sv : Server) (evs : List Event) :
    (serve sv evs).tasks = run sv.tasks (requestsOf evs) := by
  induction evs generalizing sv with
  | nil => rfl
  | cons ev rest ih =>
    cases ev with
    | connect socketId =>
      simp only [serve, throws, requestsOf, Bool.false_eq_true, if_false]
      exact ih _
    | request socketId req =>
      cases he : (handle sv.tasks req).error with
      | some e => simp [serve, throws, requestsOf, run, he, step]
      | none =>
        simp only [serve, throws, requestsOf, run, he, Option.isSome_none, Bool.false_eq_true,
          if_false]
        exact ih _
    | disconnect socketId =>
      simp only [serve, throws, requestsOf, Bool.false_eq_true, if_false]
      exact ih _

/-! ## `generateId` is as unique as its inputs -/

theorem val36_digit36 : ∀ d, d < 36 → val36 (digit36 d) = d := by
  decide

theorem digit36_ne_dash : ∀ d, d < 36 → digit36 d ≠ '-' := by
  decide

theorem dash_not_mem_toDigits36 (fuel n : Nat) : '-' ∉ toDigits36 fuel n := by
  induction fuel generalizing n with
  | zero => simp [toDigits36]
  | succ f ih =>
    simp only [toDigits36]
    split
    · rename_i h
      simp only [List.mem_singleton]
      exact fun e => digit36_ne_dash n h e.symm
    · simp only [List.mem_append, List.mem_singleton, not_or]
      exact ⟨ih _, fun e => digit36_ne_dash (n % 36) (Nat.mod_lt _ (by decide)) e.symm⟩

theorem fromDigits36_toDigits36 (fuel n : Nat) (h : n < 36 ^ fuel) :
    fromDigits36 (toDigits36 fuel n) = n := by
  induction fuel generalizing n with
  | zero =>
    simp only [pow_zero, Nat.lt_one_iff] at h
    subst h
    rfl
  | succ f ih =>
    simp only [toDigits36]
    split
    · rename_i hlt
      simp [fromDigits36, val36_digit36 n hlt]
    · have hdiv : n / 36 < 36 ^ f := by
        rw [Nat.div_lt_iff_lt_mul (by decide)]
        rw [pow_succ] at h
        exact h
      have hrec := ih (n / 36) hdiv
      unfold fromDigits36 at hrec ⊢
      rw [List.foldl_append, hrec]
      simp only [List.foldl_cons, List.foldl_nil]
      rw [val36_digit36 _ (Nat.mod_lt _ (by decide))]
      exact Nat.div_add_mod' n 36

theorem toString36_injective {n m : Nat} (h : toString36 n = toString36 m) : n = m := by
  have hd : toDigits36 (n + 1) n = toDigits36 (m + 1) m := by
    have := congrArg String.data h
    simpa [toString36] using this
  have hn : n < 36 ^ (n + 1) :=
    Nat.lt_of_lt_of_le (Nat.lt_pow_self (by decide) n) (Nat.pow_le_pow_right (by decide) (Nat.le_succ n))
  have hm : m < 36 ^ (m + 1) :=
    Nat.lt_of_lt_of_le (Nat.lt_pow_self (by decide) m) (Nat.pow_le_pow_right (by decide) (Nat.le_succ m))
  rw [← fromDigits36_toDigits36 (n + 1) n hn, ← fromDigits36_toDigits36 (m + 1) m hm, hd]

theorem append_sep_inj {α : Type} (c : α) :
    ∀ (l1 l2 s1 s2 : List α), c ∉ l1 → c ∉ l2 → l1 ++ c :: s1 = l2 ++ c :: s2 →
      l1 = l2 ∧ s1 = s2 := by
  intro l1
  induction l1 with
  | nil =>
    intro l2 s1 s2 _ h2 h
    cases l2 with
    | nil => simpa using h
    | cons b rest =>
      simp only [List.nil_append, List.cons_append, List.cons.injEq] at h
      exact absurd (h.1 ▸ List.mem_cons_self _ _) h2
  | cons a rest ih =>
    intro l2 s1 s2 h1 h2 h
    cases l2 with
    | nil =>
      simp only [List.nil_append, List.cons_append, List.cons.injEq] at h
      exact absurd (h.1 ▸ List.mem_cons_self _ _) h1
    | cons b rest2 =>
      simp only [List.cons_append, List.cons.injEq] at h
      obtain ⟨hab, hrest⟩ := h
      have := ih rest2 s1 s2 (fun hm => h1 (List.mem_cons_of_mem _ hm))
        (fun hm => h2 (List.mem_cons_of_mem _ hm)) hrest
      exact ⟨by rw [hab, this.1], this.2⟩

theorem generateId_eq_iff (e1 e2 : Env) :
    generateId e1 = generateId e2
      ↔ e1.now = e2.now ∧ substr e1.random36 2 9 = substr e2.random36 2 9 := by
  constructor
  · intro h
    have hd := congrArg String.data h
    simp only [generateId, String.data_append] at hd
    rw [List.append_assoc, List.append_assoc] at hd
    simp only [List.singleton_append] at hd
    have hsplit := append_sep_inj '-' (toString36 e1.now).data (toString36 e2.now).data _ _
      (dash_not_mem_toDigits36 (e1.now + 1) e1.now)
      (dash_not_mem_toDigits36 (e2.now + 1) e2.now) hd
    exact ⟨toString36_injective (String.ext_iff.2 hsplit.1), String.ext_iff.2 hsplit.2⟩
  · rintro ⟨h1, h2⟩
    simp only [generateId, h1, h2]

theorem sample_id_value : generateId sampleEnv = "loyw3v28-4fzyo82mv" := by
  decide

theorem sample_ids_equal : generateId sampleEnv = generateId sampleEnv2 := by
  decide

/-- C15, at the failing input: two calls of `generateId` that read the clock
value 1700000000000 and draw the random numbers 0.12345600000000001 and
0.12345600000000023 (random texts `0.4fzyo82mvyt` and `0.4fzyo82mvzm`) both
return the id `loyw3v28-4fzyo82mv`, because only nine characters of the random
text are kept. -/
theorem generateId_collision :
    sampleEnv.random36 ≠ sampleEnv2.random36
      ∧ generateId sampleEnv = "loyw3v28-4fzyo82mv"
      ∧ generateId sampleEnv2 = "loyw3v28-4fzyo82mv" :=
  ⟨by decide, by decide, by decide⟩

/-- Two calls of `generateId` return distinct ids exactly when their clock
values differ or the nine characters kept from their random texts differ. -/
theorem generateId_distinct_iff (e1 e2 : Env) :
    generateId e1 ≠ generateId e2
      ↔ (e1.now ≠ e2.now ∨ substr e1.random36 2 9 ≠ substr e2.random36 2 9) := by
  rw [Ne, generateId_eq_iff, not_and_or]

/-! ## Distinct ids -/

theorem storeIds_create (env : Env) (tasks : Store) (p : JSValue) :
    storeIds (handle tasks (.create env p)).tasks = storeIds tasks
      ∨ storeIds (handle tasks (.create env p)).tasks
          = storeIds tasks ++ [.str (generateId env)] := by
  simp only [handle]
  rcases taskCreate_outcome env tasks p with ⟨_, h⟩ | ⟨hp, task, hn, h⟩
  · left; rw [h]
  · right
    rw [h]
    obtain ⟨h1, h2⟩ := (present_iff p).1 hp
    rw [newTask_present env h1 h2] at hn
    cases hn
    simp [storeIds, JSObject.get, lookupProp]

theorem storeIds_sublist (tasks : Store) (r : Request) (hr : ∀ env p, r ≠ .create env p) :
    List.Sublist (storeIds (handle tasks r).tasks) (storeIds tasks) := by
  cases r with
  | create env p => exact absurd rfl (hr env p)
  | update updatedTask =>
    simp only [handle, storeIds, taskUpdate_map_id]
    exact List.Sublist.refl _
  | move payload =>
    simp only [handle, storeIds, taskMove_map_id]
    exact List.Sublist.refl _
  | delete taskId =>
    simp only [handle, taskDelete, storeIds]
    exact List.Sublist.map _ (List.filter_sublist tasks)
  | reset =>
    simp only [handle, tasksReset, storeIds, List.map_nil]
    exact List.nil_sublist _

theorem next_storeIds (tasks : Store) (r : Request) (rest : List Request)
    (hs : (storeIds tasks).Nodup) (hc : (createdIds (r :: rest)).Nodup)
    (hd : ∀ x ∈ storeIds tasks, x ∉ createdIds (r :: rest)) :
    (storeIds (handle tasks r).tasks).Nodup ∧ (createdIds rest).Nodup
      ∧ ∀ x ∈ storeIds (handle tasks r).tasks, x ∉ createdIds rest := by
  by_cases hcr : ∃ env p, r = .create env p
  · obtain ⟨env, p, rfl⟩ := hcr
    simp only [createdIds, List.nodup_cons] at hc
    simp only [createdIds, List.mem_cons, not_or] at hd
    rcases storeIds_create env tasks p with h | h
    · rw [h]
      exact ⟨hs, hc.2, fun x hx => (hd x hx).2⟩
    · rw [h]
      refine ⟨?_, hc.2, ?_⟩
      · apply List.nodup_append.2
        refine ⟨hs, List.nodup_singleton _, ?_⟩
        intro x hx hx2
        rw [List.mem_singleton.1 hx2] at hx
        exact (hd _ hx).1 rfl
      · intro x hx
        rcases List.mem_append.1 hx with hx | hx
        · exact (hd x hx).2
        · rw [List.mem_singleton.1 hx]
          exact hc.1
  · have hne : ∀ env p, r ≠ .create env p := fun env p e => hcr ⟨env, p, e⟩
    have hsub := storeIds_sublist tasks r hne
    have hrest : createdIds (r :: rest) = createdIds rest := by
      cases r with
      | create env p => exact absurd rfl (hne env p)
      | update _ => rfl
      | move _ => rfl
      | delete _ => rfl
      | reset => rfl
    rw [hrest] at hc hd
    exact ⟨List.Nodup.sublist hsub hs, hc, fun x hx => hd x (hsub.subset hx)⟩

theorem run_storeIds_nodup (tasks : Store) (reqs : List Request)
    (hs : (storeIds tasks).Nodup) (hc : (createdIds reqs).Nodup)
    (hd : ∀ x ∈ storeIds tasks, x ∉ createdIds reqs) :
    (storeIds (run tasks reqs)).Nodup := by
  induction reqs generalizing tasks with
  | nil => exact hs
  | cons r rest ih =>
    obtain ⟨h1, h2, h3⟩ := next_storeIds tasks r rest hs hc hd
    cases he : (handle tasks r).error with
    | some e => simp only [run, he]; exact h1
    | none => simp only [run, he]; exact ih _ h1 h2 h3

/-- C16, at the failing input: two creates that read the same clock value and
whose random draws share their nine kept characters leave two records with the
same id in a store reached from the empty store. -/
theorem reachable_duplicate_id :
    ¬ (storeIds (run [] [.create sampleEnv (.obj [("title", .str "A")]),
                         .create sampleEnv2 (.obj [("title", .str "B")])])).Nodup := by
  have h : storeIds (run [] [.create sampleEnv (.obj [("title", .str "A")]),
                             .create sampleEnv2 (.obj [("title", .str "B")])])
      = [.str (generateId sampleEnv), .str (generateId sampleEnv2)] := rfl
  rw [h, sample_ids_equal]
  simp

/-- In every store reached from the empty store by a sequence of requests whose
creates generated pairwise distinct ids, no two records have the same id. -/
theorem reachable_ids_nodup (reqs : List Request) (hc : (createdIds reqs).Nodup) :
    (storeIds (run [] reqs)).Nodup :=
  run_storeIds_nodup [] reqs List.nodup_nil hc (fun x hx => by cases hx)

theorem reachable_ids_nodup_witness :
    (storeIds (run [] [.create sampleEnv (.obj [("title", .str "A")]),
                       .create sampleEnv3 (.obj [("title", .str "B")]),
                       .update (.obj [("id", .str (generateId sampleEnv)), ("title", .str "C")]),
                       .delete (.str "zz-9")])).Nodup :=
  reachable_ids_nodup [.create sampleEnv (.obj [("title", .str "A")]),
      .create sampleEnv3 (.obj [("title", .str "B")]),
      .update (.obj [("id", .str (generateId sampleEnv)), ("title", .str "C")]),
      .delete (.str "zz-9")]
    (by simp [createdIds, generateId_eq_iff, sampleEnv, sampleEnv3])

/-! ## Malformed payloads and atomicity -/

theorem findIndex_ok_of_total (pred : JSObject → Except JSError Bool) (s : Store)
    (h : ∀ t, ∃ b, pred t = .ok b) : ∃ r, findIndex pred s = .ok r := by
  induction s with
  | nil => exact ⟨none, rfl⟩
  | cons a rest ih =>
    obtain ⟨b, hb⟩ := h a
    obtain ⟨r, hr⟩ := ih
    cases b with
    | true => exact ⟨some 0, by simp [findIndex, hb]⟩
    | false =>
      cases r with
      | none => exact ⟨none, by simp [findIndex, hb, hr]⟩
      | some i => exact ⟨some (i + 1), by simp [findIndex, hb, hr]⟩

theorem handle_error_none_of_present (tasks : Store) (r : Request)
    (hp : payloadPresent r = true) : (handle tasks r).error = none := by
  cases r with
  | create env taskData =>
    simp only [handle]
    rcases taskCreate_outcome env tasks taskData with ⟨habs, _⟩ | ⟨_, task, _, h⟩
    · simp only [payloadPresent] at hp
      rw [hp] at habs; cases habs
    · rw [h]
  | update updatedTask =>
    simp only [payloadPresent] at hp
    obtain ⟨h1, h2⟩ := (present_iff updatedTask).1 hp
    have hid := getProp_eq_propOf h1 h2 "id"
    obtain ⟨res, hres⟩ := findIndex_ok_of_total
      (fun t => (getProp updatedTask "id").map (strictEq (t.get "id"))) tasks
      (fun t => ⟨_, updatePred_eq hid t⟩)
    simp only [handle, taskUpdate, hres]
    cases res <;> rfl
  | move payload =>
    simp only [payloadPresent] at hp
    obtain ⟨h1, h2⟩ := (present_iff payload).1 hp
    have ht := getProp_eq_propOf h1 h2 "taskId"
    have hc := getProp_eq_propOf h1 h2 "newColumn"
    obtain ⟨res, hres⟩ := findIndex_ok_of_total
      (fun t => .ok (strictEq (t.get "id") (propOf payload "taskId"))) tasks
      (fun t => ⟨_, rfl⟩)
    simp only [handle, taskMove, ht, hc, hres]
    cases res <;> rfl
  | delete taskId => rfl
  | reset => rfl

theorem handle_unknown_target (tasks : Store) (r : Request) (x : JSValue)
    (hx : targetOf r = some x) (hno : ∀ t ∈ tasks, strictEq (t.get "id") x = false) :
    (handle tasks r).tasks = tasks := by
  cases r with
  | create env taskData => cases hx
  | update updatedTask =>
    simp only [targetOf, Option.some.injEq] at hx
    have hk : targetKnown tasks (.update updatedTask) = false := by
      simp only [targetKnown, List.any_eq_false, hx]
      intro t ht
      simp [hno t ht]
    rcases handle_outcome tasks (.update updatedTask) with
      ⟨_, _, h, _⟩ | ⟨_, _, h, _⟩ | ⟨_, hk2, _, _⟩
    · exact h
    · exact h
    · rw [hk] at hk2; cases hk2
  | move payload =>
    simp only [targetOf, Option.some.injEq] at hx
    have hk : targetKnown tasks (.move payload) = false := by
      simp only [targetKnown, List.any_eq_false, hx]
      intro t ht
      simp [hno t ht]
    rcases handle_outcome tasks (.move payload) with
      ⟨_, _, h, _⟩ | ⟨_, _, h, _⟩ | ⟨_, hk2, _, _⟩
    · exact h
    · exact h
    · rw [hk] at hk2; cases hk2
  | delete taskId =>
    simp only [targetOf, Option.some.injEq] at hx
    subst hx
    simp only [handle, taskDelete]
    apply List.filter_eq_self.2
    intro t ht
    simp [hno t ht]
  | reset => cases hx

/-- C18, at the failing input: with an absent payload a create, an update on a
non-empty store and a move raise a `TypeError` instead of degrading, and the
create adds no record of defaults; a delete with an absent payload raises
none. -/
theorem absent_payload_throws :
    (handle [] (.create sampleEnv .undefined)).error = some .typeError
      ∧ (handle [] (.create sampleEnv .undefined)).tasks = []
      ∧ (handle sampleStore (.update .null)).error = some .typeError
      ∧ (handle sampleStore (.move .undefined)).error = some .typeError
      ∧ (handle sampleStore (.delete .undefined)).error = none
      ∧ (handle sampleStore (.delete .undefined)).tasks = sampleStore :=
  ⟨rfl, rfl, rfl, rfl, rfl, rfl⟩

/-- A request whose payload is neither `undefined` nor `null` (a delete or a
reset with any payload) completes without raising an error; a create
fills every field that the payload leaves out or gives a falsy value with its
default; an update, move or delete whose target is the id of no record, or is
missing while the stored ids are strings, leaves the store as it was. -/
theorem handle_present_payload (tasks : Store) (r : Request) (hp : payloadPresent r = true) :
    (handle tasks r).error = none
      ∧ (∀ env p, r = .create env p →
          ∃ task, (handle tasks r).tasks = tasks ++ [task]
            ∧ ∀ kd ∈ createDefaults, truthy (propOf p kd.1) = false → task.get kd.1 = kd.2)
      ∧ (∀ x, targetOf r = some x → (∀ t ∈ tasks, strictEq (t.get "id") x = false) →
          (handle tasks r).tasks = tasks)
      ∧ (idsAreStrings tasks = true → targetOf r = some .undefined →
          (handle tasks r).tasks = tasks) := by
  refine ⟨handle_error_none_of_present tasks r hp, ?_, ?_, ?_⟩
  · intro env p hr
    subst hr
    simp only [payloadPresent] at hp
    simp only [handle]
    rcases taskCreate_outcome env tasks p with ⟨habs, _⟩ | ⟨_, task, hn, h⟩
    · rw [hp] at habs; cases habs
    · refine ⟨task, by rw [h], ?_⟩
      obtain ⟨task2, happ, _, _, hdef⟩ := newTask_applied hn tasks
      have : task = task2 := by
        have := List.append_cancel_left happ
        simpa using this
      subst this
      intro kd hkd hfalsy
      rw [hdef kd hkd]
      simp [jsOr, hfalsy]
  · intro x hx hno
    exact handle_unknown_target tasks r x hx hno
  · intro hwf hx
    apply handle_unknown_target tasks r .undefined hx
    intro t ht
    obtain ⟨s, hs⟩ := (idsAreStrings_iff tasks).1 hwf t ht
    rw [hs]
    rfl

theorem handle_present_payload_witness :
    (handle sampleStore (.create sampleEnv (.obj []))).error = none
      ∧ (∀ env p, Request.create sampleEnv (.obj []) = .create env p →
          ∃ task, (handle sampleStore (.create sampleEnv (.obj []))).tasks = sampleStore ++ [task]
            ∧ ∀ kd ∈ createDefaults, truthy (propOf p kd.1) = false → task.get kd.1 = kd.2)
      ∧ (∀ x, targetOf (.create sampleEnv (.obj [])) = some x →
          (∀ t ∈ sampleStore, strictEq (t.get "id") x = false) →
          (handle sampleStore (.create sampleEnv (.obj []))).tasks = sampleStore)
      ∧ (idsAreStrings sampleStore = true →
          targetOf (.create sampleEnv (.obj [])) = some .undefined →
          (handle sampleStore (.create sampleEnv (.obj []))).tasks = sampleStore) :=
  handle_present_payload sampleStore (.create sampleEnv (.obj [])) rfl

/-- C19: every request is atomic on the store: the store after it is either
the store before it or the fully updated store of that request; when the
handler raises an error the store is the store before the request and nothing
has been broadcast; and when it raises none and the target is known, the store
is the fully updated one. -/
theorem handle_atomic (tasks : Store) (r : Request) :
    ((handle tasks r).tasks = tasks ∨ Applied tasks r (handle tasks r).tasks)
      ∧ (∀ e, (handle tasks r).error = some e →
          (handle tasks r).tasks = tasks ∧ (handle tasks r).emitted = [])
      ∧ ((handle tasks r).error = none → targetKnown tasks r = true →
          Applied tasks r (handle tasks r).tasks) := by
  rcases handle_outcome tasks r with
    ⟨e, he, ht, hem⟩ | ⟨hn, hk, ht, hem⟩ | ⟨hn, hk, ha, hem⟩
  · refine ⟨Or.inl ht, fun _ _ => ⟨ht, hem⟩, ?_⟩
    intro h
    rw [he] at h; cases h
  · refine ⟨Or.inl ht, fun _ _ => ⟨ht, hem⟩, ?_⟩
    intro _ h
    rw [hk] at h; cases h
  · refine ⟨Or.inr ha, ?_, fun _ _ => ha⟩
    intro e he
    rw [hn] at he; cases he

/-! ## Titles -/

theorem mem_modify {α : Type} (f : α → α) (l : List α) (i : Nat) (t : α)
    (h : t ∈ l.modify f i) : t ∈ l ∨ ∃ a, l[i]? = some a ∧ t = f a := by
  induction l generalizing i with
  | nil => simp at h
  | cons a rest ih =>
    cases i with
    | zero =>
      simp only [List.modify_zero_cons, List.mem_cons] at h
      rcases h with h | h
      · exact Or.inr ⟨a, by simp, h⟩
      · exact Or.inl (List.mem_cons_of_mem _ h)
    | succ n =>
      simp only [List.modify_succ_cons, List.mem_cons] at h
      rcases h with h | h
      · exact Or.inl (h ▸ List.mem_cons_self _ _)
      · rcases ih n h with h2 | ⟨b, hb, hfb⟩
        · exact Or.inl (List.mem_cons_of_mem _ h2)
        · exact Or.inr ⟨b, by simpa using hb, hfb⟩

theorem titlesNonEmpty_iff (tasks : Store) :
    titlesNonEmpty tasks = true ↔ ∀ t ∈ tasks, truthy (t.get "title") = true := by
  simp [titlesNonEmpty, List.all_eq_true]

theorem truthy_jsOr (a b : JSValue) (hb : truthy b = true) : truthy (jsOr a b) = true := by
  unfold jsOr
  split
  · assumption
  · exact hb

theorem newTask_title_truthy {env : Env} {p : JSValue} {task : JSObject}
    (h : newTask env p = .ok task) : truthy (task.get "title") = true := by
  obtain ⟨h1, h2⟩ := (present_iff p).1 (newTask_ok_present h)
  rw [newTask_present env h1 h2] at h
  cases h
  have : JSObject.get
      [("id", JSValue.str (generateId env)),
       ("title", jsOr (propOf p "title") (.str "Untitled Task")),
       ("description", jsOr (propOf p "description") (.str "")),
       ("priority", jsOr (propOf p "priority") (.str "Medium")),
       ("category", jsOr (propOf p "category") (.str "Feature")),
       ("column", jsOr (propOf p "column") (.str "To Do")),
       ("attachments", jsOr (propOf p "attachments") (.arr [])),
       ("createdAt", .str env.isoNow)] "title"
      = jsOr (propOf p "title") (.str "Untitled Task") := by
    simp [JSObject.get, lookupProp]
  rw [this]
  exact truthy_jsOr _ _ (by decide)

theorem handle_titlesNonEmpty (tasks : Store) (r : Request) (hk : keepsTitle r = true)
    (h : titlesNonEmpty tasks = true) : titlesNonEmpty (handle tasks r).tasks = true := by
  rw [titlesNonEmpty_iff] at h ⊢
  cases r with
  | create env taskData =>
    simp only [handle]
    rcases taskCreate_outcome env tasks taskData with ⟨_, ho⟩ | ⟨_, task, hn, ho⟩
    · rw [ho]; exact h
    · rw [ho]
      intro t ht
      rcases List.mem_append.1 ht with ht | ht
      · exact h t ht
      · rw [List.mem_singleton.1 ht]
        exact newTask_title_truthy hn
  | update updatedTask =>
    simp only [handle]
    rcases taskUpdate_cases tasks updatedTask with ⟨hs, _⟩ | ⟨i, old, pid, _, hi, _, _, heq⟩
    · rw [hs]; exact h
    · rw [heq]
      intro t ht
      rcases mem_modify _ _ _ _ ht with ht | ⟨a, ha, hta⟩
      · exact h t ht
      · rw [hi] at ha
        cases ha
        rw [hta]
        have hold := h old (List.mem_iff_getElem?.2 ⟨i, hi⟩)
        unfold JSObject.get at hold ⊢
        rw [lookupProp_merged]
        simp only [keepsTitle] at hk
        cases hl : lookupProp (ownProps updatedTask) "title" with
        | none => simpa using hold
        | some v =>
          rw [hl] at hk
          simpa using hk
  | move payload =>
    simp only [handle]
    rcases taskMove_cases tasks payload with ⟨hs, _⟩ | ⟨i, old, taskId, newColumn, _, _, _, heq⟩
    · rw [hs]; exact h
    · rw [heq]
      intro t ht
      rcases mem_modify _ _ _ _ ht with ht | ⟨a, ha, hta⟩
      · exact h t ht
      · rw [hta, get_setProp_ne a newColumn (by decide)]
        exact h a (List.mem_iff_getElem?.2 ⟨i, ha⟩)
  | delete taskId =>
    simp only [handle, taskDelete]
    intro t ht
    exact h t (List.mem_of_mem_filter ht)
  | reset =>
    intro t ht
    cases ht

theorem run_titlesNonEmpty (tasks : Store) (reqs : List Request)
    (hk : ∀ r ∈ reqs, keepsTitle r = true) (h : titlesNonEmpty tasks = true) :
    titlesNonEmpty (run tasks reqs) = true := by
  induction reqs generalizing tasks with
  | nil => exact h
  | cons r rest ih =>
    have hstep := handle_titlesNonEmpty tasks r (hk r (List.mem_cons_self _ _)) h
    cases he : (handle tasks r).error with
    | some e => simp only [run, he]; exact hstep
    | none =>
      simp only [run, he]
      exact ih _ (fun q hq => hk q (List.mem_cons_of_mem _ hq)) hstep

/-- C20, as stated, fails: an update whose payload carries the empty string as
`title` leaves a record with an empty title in a store reached from the empty
store. -/
theorem reachable_empty_title :
    (run [] [.create sampleEnv (.obj [("title", .str "A")]),
             .update (.obj [("id", .str (generateId sampleEnv)), ("title", .str "")])]).map
        (fun t => t.get "title") = [.str ""]
      ∧ titlesNonEmpty
          (run [] [.create sampleEnv (.obj [("title", .str "A")]),
                   .update (.obj [("id", .str (generateId sampleEnv)), ("title", .str "")])])
          = false :=
  ⟨rfl, rfl⟩

/-- C20, amended: in every store reached from the empty store by requests none
of which is an update carrying a falsy `title` (such as the empty string), every
record has a non-empty title; a create replaces an omitted or empty title by
"Untitled Task", and no move changes a title. -/
theorem reachable_titles_nonEmpty (reqs : List Request)
    (hk : ∀ r ∈ reqs, keepsTitle r = true) :
    titlesNonEmpty (run [] reqs) = true
      ∧ (∀ env tasks p, present p = true → truthy (propOf p "title") = false →
          ∃ task, (taskCreate env tasks p).tasks = tasks ++ [task]
            ∧ task.get "title" = .str "Untitled Task")
      ∧ ∀ tasks payload, (taskMove tasks payload).tasks.map (fun t => t.get "title")
          = tasks.map (fun t => t.get "title") := by
  refine ⟨run_titlesNonEmpty [] reqs hk rfl, ?_, ?_⟩
  · intro env tasks p hp hfalsy
    rcases taskCreate_outcome env tasks p with ⟨habs, _⟩ | ⟨_, task, hn, h⟩
    · rw [hp] at habs; cases habs
    · refine ⟨task, by rw [h], ?_⟩
      obtain ⟨task2, happ, _, _, hdef⟩ := newTask_applied hn tasks
      have : task = task2 := by
        have := List.append_cancel_left happ
        simpa using this
      subst this
      have := hdef ("title", .str "Untitled Task") (by simp [createDefaults])
      rw [this]
      simp [jsOr, hfalsy]
  · intro tasks payload
    rcases taskMove_cases tasks payload with ⟨hs, _⟩ | ⟨i, old, taskId, newColumn, _, _, _, heq⟩
    · rw [hs]
    · rw [heq]
      apply map_modify_of_fixed
      intro a _
      exact get_setProp_ne a newColumn (by decide)

theorem reachable_titles_nonEmpty_witness :
    titlesNonEmpty
        (run [] [.create sampleEnv (.obj [("title", .str "")]),
                 .update (.obj [("id", .str (generateId sampleEnv)), ("priority", .str "High")]),
                 .move (.obj [("taskId", .str (generateId sampleEnv)),
                              ("newColumn", .str "Done")])]) = true :=
  (reachable_titles_nonEmpty
    [.create sampleEnv (.obj [("title", .str "")]),
     .update (.obj [("id", .str (generateId sampleEnv)), ("priority", .str "High")]),
     .move (.obj [("taskId", .str (generateId sampleEnv)), ("newColumn", .str "Done")])]
    (by
      intro r hr
      simp only [List.mem_cons, List.mem_singleton, List.not_mem_nil, or_false] at hr
      rcases hr with rfl | rfl | rfl <;> rfl)).1

/-! ## Priorities -/

theorem prioritiesValid_iff (tasks : Store) :
    prioritiesValid tasks = true ↔ ∀ t ∈ tasks, isPriority (t.get "priority") = true := by
  simp [prioritiesValid, List.all_eq_true]

theorem newTask_priority {env : Env} {p : JSValue} {task : JSObject}
    (h : newTask env p = .ok task) :
    task.get "priority" = jsOr (propOf p "priority") (.str "Medium") := by
  obtain ⟨task2, happ, _, _, hdef⟩ := newTask_applied h []
  have ht : task = task2 := by simpa using happ
  rw [ht]
  exact hdef ("priority", .str "Medium") (by simp [createDefaults])

theorem handle_prioritiesValid (tasks : Store) (r : Request) (hk : keepsPriority r = true)
    (h : prioritiesValid tasks = true) : prioritiesValid (handle tasks r).tasks = true := by
  rw [prioritiesValid_iff] at h ⊢
  cases r with
  | create env taskData =>
    simp only [handle]
    rcases taskCreate_outcome env tasks taskData with ⟨_, ho⟩ | ⟨_, task, hn, ho⟩
    · rw [ho]; exact h
    · rw [ho]
      intro t ht
      rcases List.mem_append.1 ht with ht | ht
      · exact h t ht
      · rw [List.mem_singleton.1 ht, newTask_priority hn]
        simp only [keepsPriority, Bool.or_eq_true, Bool.not_eq_true'] at hk
        unfold jsOr
        split
        · rename_i htr
          rcases hk with hk | hk
          · rw [hk] at htr; cases htr
          · exact hk
        · rfl
  | update updatedTask =>
    simp only [handle]
    rcases taskUpdate_cases tasks updatedTask with ⟨hs, _⟩ | ⟨i, old, pid, _, hi, _, _, heq⟩
    · rw [hs]; exact h
    · rw [heq]
      intro t ht
      rcases mem_modify _ _ _ _ ht with ht | ⟨a, ha, hta⟩
      · exact h t ht
      · rw [hi] at ha
        cases ha
        rw [hta]
        have hold := h old (List.mem_iff_getElem?.2 ⟨i, hi⟩)
        unfold JSObject.get at hold ⊢
        rw [lookupProp_merged]
        simp only [keepsPriority] at hk
        cases hl : lookupProp (ownProps updatedTask) "priority" with
        | none => simpa using hold
        | some v =>
          rw [hl] at hk
          simpa using hk
  | move payload =>
    simp only [handle]
    rcases taskMove_cases tasks payload with ⟨hs, _⟩ | ⟨i, old, taskId, newColumn, _, _, _, heq⟩
    · rw [hs]; exact h
    · rw [heq]
      intro t ht
      rcases mem_modify _ _ _ _ ht with ht | ⟨a, ha, hta⟩
      · exact h t ht
      · rw [hta, get_setProp_ne a newColumn (by decide)]
        exact h a (List.mem_iff_getElem?.2 ⟨i, ha⟩)
  | delete taskId =>
    simp only [handle, taskDelete]
    intro t ht
    exact h t (List.mem_of_mem_filter ht)
  | reset =>
    intro t ht
    cases ht

theorem run_prioritiesValid (tasks : Store) (reqs : List Request)
    (hk : ∀ r ∈ reqs, keepsPriority r = true) (h : prioritiesValid tasks = true) :
    prioritiesValid (run tasks reqs) = true := by
  induction reqs generalizing tasks with
  | nil => exact h
  | cons r rest ih =>
    have hstep := handle_prioritiesValid tasks r (hk r (List.mem_cons_self _ _)) h
    cases he : (handle tasks r).error with
    | some e => simp only [run, he]; exact hstep
    | none =>
      simp only [run, he]
      exact ih _ (fun q hq => hk q (List.mem_cons_of_mem _ hq)) hstep

/-- C21, as stated, fails: a create whose payload carries another priority
stores it as it is. -/
theorem reachable_other_priority :
    (run [] [.create sampleEnv (.obj [("title", .str "A"), ("priority", .str "Urgent")])]).map
        (fun t => t.get "priority") = [.str "Urgent"]
      ∧ prioritiesValid
          (run [] [.create sampleEnv (.obj [("title", .str "A"), ("priority", .str "Urgent")])])
          = false :=
  ⟨rfl, rfl⟩

/-- C21, amended: in every store reached from the empty store by requests in
which every create and every update supplies either no priority or one of
"Low", "Medium", "High", the priority of every record is one of the three. -/
theorem reachable_priorities_valid (reqs : List Request)
    (hk : ∀ r ∈ reqs, keepsPriority r = true) :
    prioritiesValid (run [] reqs) = true :=
  run_prioritiesValid [] reqs hk rfl

theorem reachable_priorities_valid_witness :
    prioritiesValid
        (run [] [.create sampleEnv (.obj [("title", .str "A")]),
                 .update (.obj [("id", .str (generateId sampleEnv)), ("priority", .str "High")]),
                 .move (.obj [("taskId", .str (generateId sampleEnv)),
                              ("newColumn", .str "Done")])]) = true :=
  reachable_priorities_valid
    [.create sampleEnv (.obj [("title", .str "A")]),
     .update (.obj [("id", .str (generateId sampleEnv)), ("priority", .str "High")]),
     .move (.obj [("taskId", .str (generateId sampleEnv)), ("newColumn", .str "Done")])]
    (by
      intro r hr
      simp only [List.mem_cons, List.mem_singleton, List.not_mem_nil, or_false] at hr
      rcases hr with rfl | rfl | rfl <;> rfl)

/-! ## Move options of a card -/

theorem strictEq_str_left (s : String) (v : JSValue) :
    strictEq (.str s) v = true ↔ v = .str s := by
  cases v <;> simp [strictEq]
  exact eq_comm

theorem strictEq_str_right (v : JSValue) (s : String) :
    strictEq v (.str s) = true ↔ v = .str s := by
  cases v <;> simp [strictEq]

/-- C23: the move options of a card are the board columns other than the
task's own column, in board order; the own column is never offered, and a task
whose column is one of the three has exactly two options. -/
theorem moveOptions_spec (task : JSObject) :
    (∀ c, c ∈ moveOptions task ↔ c ∈ COLUMNS ∧ task.get "column" ≠ .str c)
      ∧ List.Sublist (moveOptions task) COLUMNS
      ∧ (∀ c, task.get "column" = .str c → c ∉ moveOptions task)
      ∧ (∀ c ∈ COLUMNS, task.get "column" = .str c → (moveOptions task).length = 2) := by
  have hmem : ∀ c, c ∈ moveOptions task ↔ c ∈ COLUMNS ∧ task.get "column" ≠ .str c := by
    intro c
    simp only [moveOptions, List.mem_filter, Bool.not_eq_true', ← Bool.not_eq_true,
      strictEq_str_left]
  refine ⟨hmem, List.filter_sublist _, fun c hc hm => ((hmem c).1 hm).2 hc, ?_⟩
  intro c hc hcol
  simp only [COLUMNS, List.mem_cons, List.mem_singleton, List.not_mem_nil, or_false] at hc
  rcases hc with rfl | rfl | rfl <;> simp only [moveOptions, hcol] <;> rfl

/-! ## Distinct ids, request by request -/

/-- C26: an update, a move, a delete and a reset keep the ids of a store
distinct whatever their payload, and so does a create when the id it generates
is not yet the id of a record. -/
theorem handle_ids_nodup (tasks : Store) (r : Request) (hs : (storeIds tasks).Nodup)
    (hfresh : ∀ env p, r = .create env p → JSValue.str (generateId env) ∉ storeIds tasks) :
    (storeIds (handle tasks r).tasks).Nodup := by
  by_cases hcr : ∃ env p, r = .create env p
  · obtain ⟨env, p, rfl⟩ := hcr
    rcases storeIds_create env tasks p with h | h
    · rw [h]; exact hs
    · rw [h]
      apply List.nodup_append.2
      refine ⟨hs, List.nodup_singleton _, ?_⟩
      intro x hx hx2
      rw [List.mem_singleton.1 hx2] at hx
      exact hfresh env p rfl hx
  · exact List.Nodup.sublist (storeIds_sublist tasks r (fun env p e => hcr ⟨env, p, e⟩)) hs

theorem handle_ids_nodup_witness :
    (storeIds (handle sampleStore (.create sampleEnv (.obj [("title", .str "T")]))).tasks).Nodup
      ∧ JSValue.str (generateId sampleEnv) ∉ storeIds sampleStore
      ∧ (storeIds (handle sampleStore
          (.update (.obj [("id", .str "a-1"), ("title", .str "Renamed")]))).tasks).Nodup :=
  ⟨handle_ids_nodup sampleStore (.create sampleEnv (.obj [("title", .str "T")]))
      (by simp [storeIds, sampleStore, sampleTask, JSObject.get, lookupProp])
      (by
        intro env p h
        cases h
        rw [sample_id_value]
        simp [storeIds, sampleStore, sampleTask, JSObject.get, lookupProp]),
    by
      rw [sample_id_value]
      simp [storeIds, sampleStore, sampleTask, JSObject.get, lookupProp],
    handle_ids_nodup sampleStore (.update (.obj [("id", .str "a-1"), ("title", .str "Renamed")]))
      (by simp [storeIds, sampleStore, sampleTask, JSObject.get, lookupProp])
      (by intro env p h; cases h)⟩

/-! ## Move and delete commute -/

theorem findIndex_modify_eq_moveFirst (taskId newColumn : JSValue) (l : Store) :
    (match findIndex (fun t => .ok (strictEq (t.get "id") taskId)) l with
      | .ok (some i) => l.modify (fun t => setProp t "column" newColumn) i
      | _ => l) = moveFirst taskId newColumn l := by
  induction l with
  | nil => rfl
  | cons t rest ih =>
    by_cases hm : strictEq (t.get "id") taskId = true
    · simp [findIndex, moveFirst, hm]
    · have hm2 : strictEq (t.get "id") taskId = false := by simpa using hm
      simp only [findIndex, moveFirst, hm2]
      cases hf : findIndex (fun t => .ok (strictEq (t.get "id") taskId)) rest with
      | error e =>
        rw [hf] at ih
        simp only [Bool.false_eq_true, if_false]
        rw [← ih]
      | ok res =>
        cases res with
        | none =>
          rw [hf] at ih
          simp only [Bool.false_eq_true, if_false]
          rw [← ih]
        | some i =>
          rw [hf] at ih
          simp only [Bool.false_eq_true, if_false, List.modify_succ_cons]
          rw [← ih]

theorem taskMove_tasks_eq_moveFirst (tasks : Store) (x c : JSValue) :
    (taskMove tasks (.obj [("taskId", x), ("newColumn", c)])).tasks = moveFirst x c tasks := by
  have h1 : getProp (.obj [("taskId", x), ("newColumn", c)]) "taskId" = .ok x := by
    simp [getProp, ownProps, JSObject.get, lookupProp]
  have h2 : getProp (.obj [("taskId", x), ("newColumn", c)]) "newColumn" = .ok c := by
    simp [getProp, ownProps, JSObject.get, lookupProp]
  rw [← findIndex_modify_eq_moveFirst]
  simp only [taskMove, h1, h2]
  cases hf : findIndex (fun t => .ok (strictEq (t.get "id") x)) tasks with
  | error e => rfl
  | ok res => cases res <;> rfl

theorem filter_moveFirst (x y c : JSValue) (hxy : x ≠ y) (l : Store) :
    (moveFirst x c l).filter (fun t => !strictEq (t.get "id") y)
      = moveFirst x c (l.filter (fun t => !strictEq (t.get "id") y)) := by
  induction l with
  | nil => rfl
  | cons t rest ih =>
    by_cases hm : strictEq (t.get "id") x = true
    · have hy : strictEq (t.get "id") y = false := by
        cases hy : strictEq (t.get "id") y with
        | false => rfl
        | true => exact absurd ((strictEq_eq hm).symm.trans (strictEq_eq hy)) hxy
      have hy2 : strictEq ((setProp t "column" c).get "id") y = false := by
        rw [get_setProp_ne t c (by decide)]; exact hy
      simp [moveFirst, hm, List.filter_cons, hy, hy2]
    · have hm2 : strictEq (t.get "id") x = false := by simpa using hm
      cases hy : strictEq (t.get "id") y with
      | false => simp [moveFirst, hm2, List.filter_cons, hy, ih]
      | true => simp [moveFirst, hm2, List.filter_cons, hy, ih]

/-- C28: a move aimed at `x` and a delete of `y`, with `x` different from `y`,
commute on the store: either order leaves the same store. -/
theorem move_delete_commute (tasks : Store) (x y c : JSValue) (hxy : x ≠ y) :
    (taskDelete (taskMove tasks (.obj [("taskId", x), ("newColumn", c)])).tasks y).tasks
      = (taskMove (taskDelete tasks y).tasks (.obj [("taskId", x), ("newColumn", c)])).tasks := by
  rw [taskMove_tasks_eq_moveFirst, taskMove_tasks_eq_moveFirst]
  simp only [taskDelete]
  exact filter_moveFirst x y c hxy tasks

theorem move_delete_commute_witness :
    (taskDelete (taskMove sampleStore
        (.obj [("taskId", .str "b-2"), ("newColumn", .str "Done")])).tasks (.str "a-1")).tasks
      = (taskMove (taskDelete sampleStore (.str "a-1")).tasks
          (.obj [("taskId", .str "b-2"), ("newColumn", .str "Done")])).tasks :=
  move_delete_commute sampleStore (.str "b-2") (.str "a-1") (.str "Done") (by simp)

/-! ## The board partitions the tasks -/

theorem mem_columnTasks (tasks : Store) (column : String) (t : JSObject) :
    t ∈ columnTasks tasks column ↔ t ∈ tasks ∧ t.get "column" = .str column := by
  simp [columnTasks, List.mem_filter, strictEq_str_right]

theorem onBoard_iff (t : JSObject) :
    COLUMNS.any (fun column => strictEq (t.get "column") (.str column)) = true
      ↔ ∃ c ∈ COLUMNS, t.get "column" = .str c := by
  simp only [List.any_eq_true, strictEq_str_right]

theorem column_counts_add (tasks : Store) :
    (columnTasks tasks "To Do").length + (columnTasks tasks "In Progress").length
        + (columnTasks tasks "Done").length + (offBoard tasks).length = tasks.length := by
  induction tasks with
  | nil => rfl
  | cons t rest ih =>
    simp only [columnTasks, offBoard, COLUMNS, List.any_cons, List.any_nil, Bool.or_false,
      List.filter_cons] at ih ⊢
    cases h1 : strictEq (t.get "column") (.str "To Do") with
    | true =>
      have e := (strictEq_str_right _ _).1 h1
      simp [e, strictEq] at ih ⊢
      omega
    | false =>
      cases h2 : strictEq (t.get "column") (.str "In Progress") with
      | true =>
        have e := (strictEq_str_right _ _).1 h2
        simp [e, strictEq] at ih ⊢
        omega
      | false =>
        cases h3 : strictEq (t.get "column") (.str "Done") with
        | true =>
          have e := (strictEq_str_right _ _).1 h3
          simp [e, strictEq] at ih ⊢
          omega
        | false =>
          simp at ih ⊢
          omega

/-- C30: the board splits the task list by exact column name.  A task whose
column is one of the three is passed to the column of that name and to no
other; each column receives its tasks in the order of the list; a task with
any other column is passed to no column; and the three column counts add up to
the number of tasks exactly when every task has one of the three columns. -/
theorem board_partitions (tasks : Store) :
    boardColumns tasks = [("To Do", columnTasks tasks "To Do"),
        ("In Progress", columnTasks tasks "In Progress"), ("Done", columnTasks tasks "Done")]
      ∧ (∀ t ∈ tasks, ∀ c ∈ COLUMNS, t.get "column" = .str c →
          t ∈ columnTasks tasks c ∧ ∀ c2 ∈ COLUMNS, c2 ≠ c → t ∉ columnTasks tasks c2)
      ∧ (∀ c, List.Sublist (columnTasks tasks c) tasks)
      ∧ (∀ t ∈ tasks, (∀ c ∈ COLUMNS, t.get "column" ≠ .str c) →
          ∀ c ∈ COLUMNS, t ∉ columnTasks tasks c)
      ∧ ((columnTasks tasks "To Do").length + (columnTasks tasks "In Progress").length
            + (columnTasks tasks "Done").length = tasks.length
          ↔ ∀ t ∈ tasks, ∃ c ∈ COLUMNS, t.get "column" = .str c) := by
  refine ⟨rfl, ?_, fun c => List.filter_sublist _, ?_, ?_⟩
  · intro t ht c _ hcol
    refine ⟨(mem_columnTasks tasks c t).2 ⟨ht, hcol⟩, ?_⟩
    intro c2 _ hne hmem
    have := ((mem_columnTasks tasks c2 t).1 hmem).2
    rw [hcol] at this
    exact hne (JSValue.str.inj this).symm
  · intro t _ hno c hc hmem
    exact hno c hc ((mem_columnTasks tasks c t).1 hmem).2
  · have hadd := column_counts_add tasks
    constructor
    · intro hsum t ht
      have hoff : (offBoard tasks).length = 0 := by omega
      have hnil : offBoard tasks = [] := List.length_eq_zero.1 hoff
      by_contra hcon
      have : t ∈ offBoard tasks := by
        simp only [offBoard, List.mem_filter, Bool.not_eq_true', ← Bool.not_eq_true, onBoard_iff]
        exact ⟨ht, hcon⟩
      rw [hnil] at this
      cases this
    · intro hall
      have hnil : offBoard tasks = [] := by
        apply List.filter_eq_nil_iff.2
        intro t ht
        simp only [Bool.not_eq_true', ← Bool.not_eq_true, onBoard_iff, not_not]
        exact hall t ht
      rw [hnil] at hadd
      simpa using hadd

/-! ## Submitting the task form -/

theorem dropWhile_eq_nil_of_all_mem {α : Type} (p : α → Bool) (l : List α)
    (h : ∀ x ∈ l.dropWhile p, p x = true) : l.dropWhile p = [] := by
  cases hd : l.dropWhile p with
  | nil => rfl
  | cons a rest =>
    have hhead := List.head?_dropWhile_not p l
    rw [hd] at hhead h
    simp only [List.head?_cons] at hhead
    have := h a (List.mem_cons_self _ _)
    rw [hhead] at this
    cases this

theorem trimChars_eq_nil_iff (cs : List Char) :
    trimChars cs = [] ↔ ∀ c ∈ cs, isJSWhitespace c = true := by
  unfold trimChars
  rw [List.reverse_eq_nil_iff, List.dropWhile_eq_nil_iff]
  constructor
  · intro h
    have hall : ∀ x ∈ cs.dropWhile isJSWhitespace, isJSWhitespace x = true :=
      fun x hx => h x (List.mem_reverse.2 hx)
    exact List.dropWhile_eq_nil_iff.1 (dropWhile_eq_nil_of_all_mem _ _ hall)
  · intro h x hx
    rw [List.dropWhile_eq_nil_iff.2 h] at hx
    simp at hx

theorem jsTrim_eq_empty_iff (s : String) :
    jsTrim s = "" ↔ ∀ c ∈ s.toList, isJSWhitespace c = true := by
  rw [← trimChars_eq_nil_iff]
  unfold jsTrim
  constructor
  · intro h
    have := congrArg String.data h
    simpa using this
  · intro h
    rw [h]

theorem trimChars_spec (cs : List Char) :
    ∃ pre post, cs = pre ++ trimChars cs ++ post
      ∧ (∀ c ∈ pre, isJSWhitespace c = true) ∧ (∀ c ∈ post, isJSWhitespace c = true)
      ∧ (∀ c, (trimChars cs).head? = some c → isJSWhitespace c = false)
      ∧ (∀ c, (trimChars cs).getLast? = some c → isJSWhitespace c = false) := by
  have h1 := List.takeWhile_append_dropWhile isJSWhitespace cs
  have h2 := List.takeWhile_append_dropWhile isJSWhitespace
    (cs.dropWhile isJSWhitespace).reverse
  have h3 : cs.dropWhile isJSWhitespace
      = trimChars cs
        ++ ((cs.dropWhile isJSWhitespace).reverse.takeWhile isJSWhitespace).reverse := by
    have := congrArg List.reverse h2
    rw [List.reverse_append, List.reverse_reverse] at this
    exact this.symm
  refine ⟨cs.takeWhile isJSWhitespace,
    ((cs.dropWhile isJSWhitespace).reverse.takeWhile isJSWhitespace).reverse, ?_,
    fun c hc => List.mem_takeWhile_imp hc,
    fun c hc => List.mem_takeWhile_imp (List.mem_reverse.1 hc), ?_, ?_⟩
  · rw [List.append_assoc, ← h3, h1]
  · intro c hc
    have hhead := List.head?_dropWhile_not isJSWhitespace cs
    rw [h3, List.head?_append, hc] at hhead
    simpa using hhead
  · intro c hc
    have hhead := List.head?_dropWhile_not isJSWhitespace (cs.dropWhile isJSWhitespace).reverse
    unfold trimChars at hc
    rw [List.getLast?_reverse] at hc
    rw [hc] at hhead
    simpa using hhead

theorem ownProps_of_falsy {a : JSValue} (h : truthy a = false) : ownProps a = [] := by
  cases a with
  | str s =>
    have hs : s = "" := by simpa [truthy] using h
    subst hs
    rfl
  | arr xs => simp [truthy] at h
  | obj ps => simp [truthy] at h
  | _ => rfl

theorem optChain_truthy_eq_propOf {v : JSValue} {key : String}
    (h : truthy (optChain v key) = true) : propOf v key = optChain v key := by
  cases v <;> rfl

theorem lookup_id_submitted (task : JSValue) :
    lookupProp (spread [] (jsAnd (optChain task "id") (.obj [("id", propOf task "id")]))) "id"
      = if truthy (optChain task "id") then some (optChain task "id") else none := by
  rw [lookupProp_spread]
  cases ht : truthy (optChain task "id") with
  | true =>
    simp [jsAnd, ht, ownProps, lookupProp, optChain_truthy_eq_propOf ht]
  | false =>
    simp [jsAnd, ht, ownProps_of_falsy ht, lookupProp]

/-- C24, as stated, fails: a record that a create stored with the title `A` and
the description `5` opens a form whose title has a character that is not white
space, and submitting that form throws a `TypeError` without calling
`onSave`. -/
theorem handleSubmit_numeric_description :
    (run [] [.create sampleEnv (.obj [("title", .str "A"), ("description", .num 5)])]).map
        (fun t => ((initialForm (.obj t)).title, (initialForm (.obj t)).description))
        = [(.str "A", .num 5)]
      ∧ (∃ c ∈ "A".toList, isJSWhitespace c = false)
      ∧ (run [] [.create sampleEnv (.obj [("title", .str "A"), ("description", .num 5)])]).map
          (fun t => ((handleSubmit (initialForm (.obj t))).saved,
            (handleSubmit (initialForm (.obj t))).error))
          = [([], some .typeError)] :=
  ⟨rfl, ⟨'A', by simp, by decide⟩, rfl⟩

/-- C24, amended: submitting the form calls `onSave` exactly when the title is
a string with a character that is not white space and the description is a
string, and then once, with the trimmed title and description, the selected
priority and category, the attachments, the task's column or "To Do" when the
task has none, and an `id` exactly when the edited task has a (truthy) id,
which is then the task's id; with a string title and a string description
submitting raises no error. -/
theorem handleSubmit_spec (form : FormState) :
    ((handleSubmit form).saved.length = 1 ↔
        ∃ t d, form.title = .str t ∧ form.description = .str d
          ∧ ∃ c ∈ t.toList, isJSWhitespace c = false)
      ∧ ((handleSubmit form).saved = [] ↔
        ¬ ∃ t d, form.title = .str t ∧ form.description = .str d
          ∧ ∃ c ∈ t.toList, isJSWhitespace c = false)
      ∧ (∀ t d, form.title = .str t → form.description = .str d →
          (handleSubmit form).error = none)
      ∧ ∀ payload ∈ (handleSubmit form).saved, ∃ t d,
          form.title = .str t ∧ form.description = .str d
          ∧ payload.get "title" = .str (jsTrim t)
          ∧ payload.get "description" = .str (jsTrim d)
          ∧ payload.get "priority" = form.priority
          ∧ payload.get "category" = form.category
          ∧ payload.get "attachments" = form.attachments
          ∧ payload.get "column" = jsOr (optChain form.task "column") (.str "To Do")
          ∧ hasProp payload "id" = truthy (optChain form.task "id")
          ∧ (truthy (optChain form.task "id") = true →
              payload.get "id" = optChain form.task "id") := by
  cases htitle : callTrim form.title with
  | error e =>
    have hns : ∀ t, form.title ≠ .str t := by
      intro t h
      rw [h] at htitle
      cases htitle
    have hnil : (handleSubmit form).saved = [] := by simp [handleSubmit, htitle]
    have hno : ¬ ∃ t d, form.title = .str t ∧ form.description = .str d
        ∧ ∃ c ∈ t.toList, isJSWhitespace c = false := by
      rintro ⟨t, _, h, _⟩
      exact hns t h
    refine ⟨?_, ?_, ?_, ?_⟩
    · rw [hnil]
      exact ⟨fun h => (by cases h), fun h => absurd h hno⟩
    · exact ⟨fun _ => hno, fun _ => hnil⟩
    · intro t _ h _
      exact absurd h (hns t)
    · intro payload hp
      rw [hnil] at hp
      cases hp
  | ok tt =>
    obtain ⟨t, ht, htt⟩ : ∃ t, form.title = .str t ∧ tt = jsTrim t := by
      cases hv : form.title with
      | str s =>
        rw [hv] at htitle
        simp only [callTrim, Except.ok.injEq] at htitle
        exact ⟨s, rfl, htitle.symm⟩
      | _ => rw [hv] at htitle; cases htitle
    subst htt
    by_cases hblank : jsTrim t = ""
    · have hall := (jsTrim_eq_empty_iff t).1 hblank
      have hout : handleSubmit form = { saved := [], error := none } := by
        simp [handleSubmit, htitle, hblank]
      have hno : ¬ ∃ t d, form.title = .str t ∧ form.description = .str d
          ∧ ∃ c ∈ t.toList, isJSWhitespace c = false := by
        rintro ⟨t2, _, h, _, c, hc, hw⟩
        rw [ht] at h
        cases h
        rw [hall c hc] at hw
        cases hw
      refine ⟨?_, ?_, ?_, ?_⟩
      · rw [hout]
        exact ⟨fun h => (by cases h), fun h => absurd h hno⟩
      · rw [hout]
        exact ⟨fun _ => hno, fun _ => rfl⟩
      · intro _ _ _ _
        rw [hout]
      · intro payload hp
        rw [hout] at hp
        cases hp
    · have hex : ∃ c ∈ t.toList, isJSWhitespace c = false := by
        by_contra hcon
        apply hblank
        apply (jsTrim_eq_empty_iff t).2
        intro c hc
        cases hw : isJSWhitespace c with
        | true => rfl
        | false => exact absurd ⟨c, hc, hw⟩ hcon
      cases hdesc : callTrim form.description with
      | error e =>
        have hns : ∀ d, form.description ≠ .str d := by
          intro d h
          rw [h] at hdesc
          cases hdesc
        have hnil : (handleSubmit form).saved = [] := by
          simp [handleSubmit, htitle, hblank, hdesc]
        have hno : ¬ ∃ t d, form.title = .str t ∧ form.description = .str d
            ∧ ∃ c ∈ t.toList, isJSWhitespace c = false := by
          rintro ⟨_, d, _, h, _⟩
          exact hns d h
        refine ⟨?_, ?_, ?_, ?_⟩
        · rw [hnil]
          exact ⟨fun h => (by cases h), fun h => absurd h hno⟩
        · exact ⟨fun _ => hno, fun _ => hnil⟩
        · intro _ d _ h
          exact absurd h (hns d)
        · intro payload hp
          rw [hnil] at hp
          cases hp
      | ok dd =>
        obtain ⟨d, hd, hdd⟩ : ∃ d, form.description = .str d ∧ dd = jsTrim d := by
          cases hv : form.description with
          | str s =>
            rw [hv] at hdesc
            simp only [callTrim, Except.ok.injEq] at hdesc
            exact ⟨s, rfl, hdesc.symm⟩
          | _ => rw [hv] at hdesc; cases hdesc
        subst hdd
        have hyes : ∃ t d, form.title = .str t ∧ form.description = .str d
            ∧ ∃ c ∈ t.toList, isJSWhitespace c = false := ⟨t, d, ht, hd, hex⟩
        refine ⟨?_, ?_, ?_, ?_⟩
        · simp only [handleSubmit, htitle, hblank, hdesc, if_false, List.length_singleton,
            true_iff]
          exact hyes
        · constructor
          · intro h
            simp [handleSubmit, htitle, hblank, hdesc] at h
          · intro h
            exact absurd hyes h
        · intro _ _ _ _
          simp [handleSubmit, htitle, hblank, hdesc]
        · intro payload hp
          simp only [handleSubmit, htitle, hblank, hdesc, if_false, List.mem_singleton] at hp
          subst hp
          refine ⟨t, d, ht, hd, ?_, ?_, ?_, ?_, ?_, ?_, ?_, ?_⟩
          · simp [JSObject.get, lookupProp_setProp]
          · simp [JSObject.get, lookupProp_setProp]
          · simp [JSObject.get, lookupProp_setProp]
          · simp [JSObject.get, lookupProp_setProp]
          · simp [JSObject.get, lookupProp_setProp]
          · simp [JSObject.get, lookupProp_setProp]
          · simp only [hasProp, lookupProp_setProp]
            simp only [String.reduceEq, if_false, lookup_id_submitted]
            cases truthy (optChain form.task "id") <;> rfl
          · intro hid
            simp only [JSObject.get, lookupProp_setProp]
            simp [lookup_id_submitted, hid]

/-! ## Choosing files -/

theorem foldl_uploadOne (files : List FileInfo) (acc : UploadEffects) :
    files.foldl uploadOne acc
      = { fileErrors := acc.fileErrors
            ++ (files.filter (fun f => !ALLOWED_FILE_TYPES.contains f.type)).map unsupportedMessage,
          reads := acc.reads ++ files.filter (fun f => ALLOWED_FILE_TYPES.contains f.type) } := by
  induction files generalizing acc with
  | nil => simp
  | cons f rest ih =>
    rw [List.foldl_cons, ih]
    by_cases h : f.type ∈ ALLOWED_FILE_TYPES <;> simp [uploadOne, h, List.filter_cons]

theorem handleFileUpload_eq (files : List FileInfo) :
    handleFileUpload files
      = { fileErrors := ""
            :: (files.filter (fun f => !ALLOWED_FILE_TYPES.contains f.type)).map unsupportedMessage,
          reads := files.filter (fun f => ALLOWED_FILE_TYPES.contains f.type) } := by
  simp [handleFileUpload, foldl_uploadOne]

theorem attachmentsAfter_eq (prev : List JSValue) (loads : List (FileInfo × String)) :
    attachmentsAfter prev loads
      = prev ++ loads.map (fun l =>
          JSValue.obj [("name", .str l.1.name), ("type", .str l.1.type), ("url", .str l.2)]) := by
  unfold attachmentsAfter
  induction loads generalizing prev with
  | nil => simp
  | cons l rest ih =>
    rw [List.foldl_cons, ih]
    simp [onload]

theorem filter_unsupported_eq_nil {files : List FileInfo}
    (h : ∀ f ∈ files, f.type ∈ ALLOWED_FILE_TYPES) :
    files.filter (fun f => !ALLOWED_FILE_TYPES.contains f.type) = [] := by
  rw [List.filter_eq_nil_iff]
  intro f hf
  simp [h f hf]

theorem mem_reads_iff (files : List FileInfo) (f : FileInfo) :
    f ∈ (handleFileUpload files).reads ↔ f ∈ files ∧ f.type ∈ ALLOWED_FILE_TYPES := by
  rw [handleFileUpload_eq]
  simp [List.mem_filter]

/-- C25, as stated, fails: in a batch of two files of unsupported types the
error after the batch names the second file only, not the first. -/
theorem fileError_names_last_only :
    fileErrorAfter (handleFileUpload
        [{ name := "a.exe", type := "application/x-msdownload" },
         { name := "b.zip", type := "application/zip" }])
        = "Unsupported file format: b.zip. Allowed: JPEG, PNG, GIF, WebP, PDF"
      ∧ fileErrorAfter (handleFileUpload
          [{ name := "a.exe", type := "application/x-msdownload" },
           { name := "b.zip", type := "application/zip" }])
          ≠ "Unsupported file format: a.exe. Allowed: JPEG, PNG, GIF, WebP, PDF" :=
  ⟨by decide, by decide⟩

/-- C25, amended: for every batch of chosen files whose started reads each
complete once, in any order: when every file is of one of the five allowed
types the error after the batch is empty; otherwise it is the "Unsupported file
format" message naming the last file of another type, and `setFileError` was
called with that message for each file of another type; the attachments after
the batch are the previous ones followed by one record of name, type and data
URL for each completed read; every record added belongs to a file of the batch
of an allowed type, so that a file of another type is never added; and every
file of an allowed type has a record carrying its name and type. -/
theorem handleFileUpload_spec (files : List FileInfo) (prev : List JSValue)
    (loads : List (FileInfo × String))
    (hloads : List.Perm (loads.map Prod.fst) (handleFileUpload files).reads) :
    ((∀ f ∈ files, f.type ∈ ALLOWED_FILE_TYPES) → fileErrorAfter (handleFileUpload files) = "")
      ∧ (∀ pre f post, files = pre ++ f :: post → f.type ∉ ALLOWED_FILE_TYPES →
          (∀ g ∈ post, g.type ∈ ALLOWED_FILE_TYPES) →
          fileErrorAfter (handleFileUpload files)
            = "Unsupported file format: " ++ f.name ++ ". Allowed: JPEG, PNG, GIF, WebP, PDF")
      ∧ (∀ f ∈ files, f.type ∉ ALLOWED_FILE_TYPES →
          "Unsupported file format: " ++ f.name ++ ". Allowed: JPEG, PNG, GIF, WebP, PDF"
            ∈ (handleFileUpload files).fileErrors)
      ∧ attachmentsAfter prev loads
          = prev ++ loads.map (fun l =>
              JSValue.obj [("name", .str l.1.name), ("type", .str l.1.type), ("url", .str l.2)])
      ∧ (∀ a ∈ (attachmentsAfter prev loads).drop prev.length,
          ∃ f ∈ files, f.type ∈ ALLOWED_FILE_TYPES
            ∧ ∃ url, a = .obj [("name", .str f.name), ("type", .str f.type), ("url", .str url)])
      ∧ ∀ f ∈ files, f.type ∈ ALLOWED_FILE_TYPES →
          ∃ url, JSValue.obj [("name", .str f.name), ("type", .str f.type), ("url", .str url)]
            ∈ (attachmentsAfter prev loads).drop prev.length := by
  have hdrop : (attachmentsAfter prev loads).drop prev.length
      = loads.map (fun l =>
          JSValue.obj [("name", .str l.1.name), ("type", .str l.1.type), ("url", .str l.2)]) := by
    rw [attachmentsAfter_eq]
    simp
  refine ⟨?_, ?_, ?_, attachmentsAfter_eq prev loads, ?_, ?_⟩
  · intro hall
    rw [handleFileUpload_eq, filter_unsupported_eq_nil hall]
    rfl
  · intro pre f post hfiles hbad hpost
    have hc : ALLOWED_FILE_TYPES.contains f.type = false := by
      simpa using hbad
    have hlast : ∀ l : List String,
        ("" :: (l ++ [unsupportedMessage f])).getLast? = some (unsupportedMessage f) := by
      intro l
      rw [← List.cons_append, List.getLast?_concat]
    rw [handleFileUpload_eq, hfiles, List.filter_append, List.filter_cons,
      filter_unsupported_eq_nil hpost]
    simp only [hc, Bool.not_false, if_true, List.map_append, List.map_cons, List.map_nil,
      fileErrorAfter, hlast]
    rfl
  · intro f hf hbad
    have hc : ALLOWED_FILE_TYPES.contains f.type = false := by
      simpa using hbad
    rw [handleFileUpload_eq]
    apply List.mem_cons_of_mem
    exact List.mem_map.2 ⟨f, List.mem_filter.2 ⟨hf, by rw [hc]; rfl⟩, rfl⟩
  · intro a ha
    rw [hdrop] at ha
    obtain ⟨l, hl, rfl⟩ := List.mem_map.1 ha
    have hmem : l.1 ∈ (handleFileUpload files).reads :=
      hloads.mem_iff.1 (List.mem_map.2 ⟨l, hl, rfl⟩)
    obtain ⟨hin, hok⟩ := (mem_reads_iff files l.1).1 hmem
    exact ⟨l.1, hin, hok, l.2, rfl⟩
  · intro f hf hok
    have hmem : f ∈ loads.map Prod.fst :=
      hloads.mem_iff.2 ((mem_reads_iff files f).2 ⟨hf, hok⟩)
    obtain ⟨l, hl, rfl⟩ := List.mem_map.1 hmem
    rw [hdrop]
    exact ⟨l.2, List.mem_map.2 ⟨l, hl, rfl⟩⟩

theorem handleFileUpload_spec_witness :
    List.Perm
        ([(({ name := "a.png", type := "image/png" } : FileInfo),
            "data:image/png;base64,AAAA")].map Prod.fst)
        (handleFileUpload [{ name := "a.png", type := "image/png" },
          { name := "malware.exe", type := "application/x-msdownload" }]).reads
      ∧ fileErrorAfter (handleFileUpload [{ name := "a.png", type := "image/png" },
          { name := "malware.exe", type := "application/x-msdownload" }])
          = "Unsupported file format: malware.exe. Allowed: JPEG, PNG, GIF, WebP, PDF"
      ∧ attachmentsAfter []
          [(({ name := "a.png", type := "image/png" } : FileInfo), "data:image/png;base64,AAAA")]
          = [.obj [("name", .str "a.png"), ("type", .str "image/png"),
                   ("url", .str "data:image/png;base64,AAAA")]] :=
  ⟨List.Perm.refl _,
    ((handleFileUpload_spec
      [{ name := "a.png", type := "image/png" },
       { name := "malware.exe", type := "application/x-msdownload" }] []
      [({ name := "a.png", type := "image/png" }, "data:image/png;base64,AAAA")]
      (List.Perm.refl _)).2.1
      [{ name := "a.png", type := "image/png" }]
      { name := "malware.exe", type := "application/x-msdownload" } [] rfl (by decide)
      (by simp)).trans (by decide),
    (handleFileUpload_spec
      [{ name := "a.png", type := "image/png" },
       { name := "malware.exe", type := "application/x-msdownload" }] []
      [({ name := "a.png", type := "image/png" }, "data:image/png;base64,AAAA")]
      (List.Perm.refl _)).2.2.2.1⟩

/-! ## Move as an update -/

theorem lookupProp_eq_none_iff (o : JSObject) (k : String) :
    lookupProp o k = none ↔ k ∉ o.map Prod.fst := by
  induction o with
  | nil => simp [lookupProp]
  | cons kv rest ih =>
    obtain ⟨k0, w⟩ := kv
    simp only [lookupProp, List.map_cons, List.mem_cons, not_or]
    cases hl : lookupProp rest k with
    | some u =>
      have hin : k ∈ rest.map Prod.fst := by
        by_contra hn
        rw [ih.2 hn] at hl; cases hl
      constructor
      · intro h; cases h
      · intro h; exact absurd hin h.2
    | none =>
      have hn := ih.1 hl
      by_cases h0 : k0 = k
      · simp [h0]
      · simp [h0, hn, Ne.symm h0]

theorem keys_overwriteProp (o : JSObject) (k : String) (v : JSValue) :
    (overwriteProp o k v).map Prod.fst = o.map Prod.fst := by
  induction o with
  | nil => rfl
  | cons kv rest ih => simp [overwriteProp, ih]

theorem setProp_of_absent {o : JSObject} {k : String} (v : JSValue)
    (h : k ∉ o.map Prod.fst) : setProp o k v = o ++ [(k, v)] := by
  simp [setProp, hasProp, (lookupProp_eq_none_iff o k).2 h]

theorem distinctKeys_setProp {o : JSObject} (k : String) (v : JSValue) (h : distinctKeys o) :
    distinctKeys (setProp o k v) := by
  unfold distinctKeys at h ⊢
  by_cases hk : k ∈ o.map Prod.fst
  · have hp : hasProp o k = true := by
      cases hl : lookupProp o k with
      | none => exact absurd hk ((lookupProp_eq_none_iff o k).1 hl)
      | some u => simp [hasProp, hl]
    simp only [setProp, hp, if_true, keys_overwriteProp]
    exact h
  · rw [setProp_of_absent v hk, List.map_append, List.nodup_append]
    refine ⟨h, List.nodup_singleton _, ?_⟩
    intro a ha ha2
    simp only [List.map_cons, List.map_nil, List.mem_singleton] at ha2
    exact hk (ha2 ▸ ha)

theorem distinctKeys_spread {base : JSObject} (v : JSValue) (h : distinctKeys base) :
    distinctKeys (spread base v) := by
  unfold spread
  generalize ownProps v = ps
  induction ps generalizing base with
  | nil => exact h
  | cons kv rest ih => exact ih (distinctKeys_setProp kv.1 kv.2 h)

theorem foldl_setProp_append (rest acc : JSObject) (hn : (rest.map Prod.fst).Nodup)
    (hd : ∀ k ∈ rest.map Prod.fst, k ∉ acc.map Prod.fst) :
    rest.foldl (fun a kv => setProp a kv.1 kv.2) acc = acc ++ rest := by
  induction rest generalizing acc with
  | nil => simp
  | cons kv tail ih =>
    obtain ⟨k, v⟩ := kv
    simp only [List.map_cons, List.nodup_cons] at hn
    have hk : k ∉ acc.map Prod.fst := hd k (by simp)
    rw [List.foldl_cons, setProp_of_absent v hk, ih _ hn.2]
    · simp
    · intro k2 hk2
      simp only [List.map_append, List.map_cons, List.map_nil, List.mem_append,
        List.mem_singleton, not_or]
      refine ⟨hd k2 (by simp [hk2]), ?_⟩
      intro e
      exact hn.1 (e ▸ hk2)

theorem spread_copy {o : JSObject} (h : distinctKeys o) : spread [] (.obj o) = o := by
  have := foldl_setProp_append o [] h (fun _ _ => by simp)
  simpa [spread, ownProps] using this

theorem overwriteProp_of_absent {o : JSObject} {k : String} (v : JSValue)
    (h : k ∉ o.map Prod.fst) : overwriteProp o k v = o := by
  induction o with
  | nil => rfl
  | cons kv rest ih =>
    obtain ⟨k0, w⟩ := kv
    simp only [List.map_cons, List.mem_cons, not_or] at h
    simp [overwriteProp, Ne.symm h.1, ih h.2]

theorem overwriteProp_same {o : JSObject} {k : String} {v : JSValue} (h : distinctKeys o)
    (hl : lookupProp o k = some v) : overwriteProp o k v = o := by
  induction o with
  | nil => rfl
  | cons kv rest ih =>
    obtain ⟨k0, w⟩ := kv
    unfold distinctKeys at h
    simp only [List.map_cons, List.nodup_cons] at h
    simp only [lookupProp] at hl
    cases hr : lookupProp rest k with
    | some u =>
      rw [hr] at hl
      have hin : k ∈ rest.map Prod.fst := by
        by_contra hn
        rw [(lookupProp_eq_none_iff rest k).2 hn] at hr; cases hr
      have hne : k0 ≠ k := fun e => h.1 (e ▸ hin)
      simp only [overwriteProp, if_neg hne]
      rw [ih h.2 (by rw [hr]; exact hl)]
    | none =>
      rw [hr] at hl
      by_cases h0 : k0 = k
      · simp only [h0, if_true, Option.some.injEq] at hl
        simp only [overwriteProp, h0, if_true, hl]
        rw [overwriteProp_of_absent v ((lookupProp_eq_none_iff rest k).1 hr)]
      · simp [h0] at hl

theorem setProp_same {o : JSObject} {k : String} {v : JSValue} (h : distinctKeys o)
    (hl : lookupProp o k = some v) : setProp o k v = o := by
  simp only [setProp, hasProp, hl, Option.isSome_some, if_true]
  exact overwriteProp_same h hl

theorem modify_congr {α : Type} (f g : α → α) (l : List α) (i : Nat)
    (h : ∀ a, l[i]? = some a → f a = g a) : l.modify f i = l.modify g i := by
  induction l generalizing i with
  | nil => simp
  | cons a rest ih =>
    cases i with
    | zero => simp [h a (by simp)]
    | succ n => simp [ih n (fun b hb => h b (by simpa using hb))]

theorem merged_eq_moved {old : JSObject} {x : String} (c : JSValue) (h : distinctKeys old)
    (hm : strictEq (old.get "id") (.str x) = true) :
    spread (spread [] (.obj old)) (.obj [("id", .str x), ("column", c)])
      = setProp old "column" c := by
  have hid : old.get "id" = .str x := (strictEq_str_right _ _).1 hm
  have hl : lookupProp old "id" = some (.str x) := by
    unfold JSObject.get at hid
    cases hlo : lookupProp old "id" with
    | none => rw [hlo] at hid; cases hid
    | some u => rw [hlo] at hid; simpa using hid
  rw [spread_copy h]
  simp only [spread, ownProps, List.foldl_cons, List.foldl_nil]
  rw [setProp_same h hl]

/-- C27: on a store whose records have pairwise distinct property names, a
move with `taskId` `x` and `newColumn` `c` and an update with the payload
`{id: x, column: c}` have the same outcome: the same store, and the same
broadcast, made exactly when a record with id `x` exists. -/
theorem move_eq_update (tasks : Store) (x : String) (c : JSValue)
    (hk : ∀ t ∈ tasks, distinctKeys t) :
    taskMove tasks (.obj [("taskId", .str x), ("newColumn", c)])
        = taskUpdate tasks (.obj [("id", .str x), ("column", c)])
      ∧ ((taskMove tasks (.obj [("taskId", .str x), ("newColumn", c)])).emitted ≠ []
          ↔ ∃ t ∈ tasks, t.get "id" = .str x) := by
  have h1 : getProp (.obj [("taskId", .str x), ("newColumn", c)]) "taskId" = .ok (.str x) := by
    simp [getProp, ownProps, JSObject.get, lookupProp]
  have h2 : getProp (.obj [("taskId", .str x), ("newColumn", c)]) "newColumn" = .ok c := by
    simp [getProp, ownProps, JSObject.get, lookupProp]
  have hid : getProp (.obj [("id", .str x), ("column", c)]) "id" = .ok (.str x) := by
    simp [getProp, ownProps, JSObject.get, lookupProp]
  have hpred : (fun t : JSObject =>
        (getProp (.obj [("id", .str x), ("column", c)]) "id").map (strictEq (t.get "id")))
      = fun t => .ok (strictEq (t.get "id") (.str x)) := by
    funext t
    exact updatePred_eq hid t
  cases hf : findIndex (fun t => .ok (strictEq (t.get "id") (.str x))) tasks with
  | error e =>
    constructor
    · simp only [taskMove, h1, h2, hf, taskUpdate, hpred]
    · have hem : (taskMove tasks (.obj [("taskId", .str x), ("newColumn", c)])).emitted = [] := by
        simp only [taskMove, h1, h2, hf]
      obtain ⟨r, hr⟩ := findIndex_ok_of_total
        (fun t => .ok (strictEq (t.get "id") (.str x))) tasks (fun t => ⟨_, rfl⟩)
      rw [hr] at hf; cases hf
  | ok res =>
    cases res with
    | none =>
      constructor
      · simp only [taskMove, h1, h2, hf, taskUpdate, hpred]
      · have hem : (taskMove tasks (.obj [("taskId", .str x), ("newColumn", c)])).emitted = [] := by
          simp only [taskMove, h1, h2, hf]
        rw [hem]
        constructor
        · intro h; exact absurd rfl h
        · rintro ⟨t, ht, hte⟩
          have := findIndex_none_spec hf t ht
          rw [hte] at this
          simp [strictEq] at this
    | some i =>
      obtain ⟨⟨old, hi, hp⟩, _⟩ := findIndex_some_spec hf
      have hm : strictEq (old.get "id") (.str x) = true := by simpa using hp
      have hmod : tasks.modify (fun t => setProp t "column" c) i
          = tasks.modify
              (fun t => spread (spread [] (.obj t)) (.obj [("id", .str x), ("column", c)])) i := by
        apply modify_congr
        intro a ha
        rw [hi] at ha
        cases ha
        exact (merged_eq_moved c (hk old (List.mem_iff_getElem?.2 ⟨i, hi⟩)) hm).symm
      constructor
      · simp only [taskMove, h1, h2, hf, taskUpdate, hpred, hmod]
      · have hem : (taskMove tasks (.obj [("taskId", .str x), ("newColumn", c)])).emitted
            = [.all (tasks.modify (fun t => setProp t "column" c) i)] := by
          simp only [taskMove, h1, h2, hf]
        rw [hem]
        constructor
        · intro _
          exact ⟨old, List.mem_iff_getElem?.2 ⟨i, hi⟩, (strictEq_str_right _ _).1 hm⟩
        · intro _ h
          cases h

theorem handle_distinctKeys (tasks : Store) (r : Request) (h : ∀ t ∈ tasks, distinctKeys t) :
    ∀ t ∈ (handle tasks r).tasks, distinctKeys t := by
  cases r with
  | create env taskData =>
    simp only [handle]
    rcases taskCreate_outcome env tasks taskData with ⟨_, ho⟩ | ⟨hp, task, hn, ho⟩
    · rw [ho]; exact h
    · rw [ho]
      intro t ht
      rcases List.mem_append.1 ht with ht | ht
      · exact h t ht
      · rw [List.mem_singleton.1 ht]
        obtain ⟨h1, h2⟩ := (present_iff taskData).1 hp
        rw [newTask_present env h1 h2] at hn
        cases hn
        simp [distinctKeys]
  | update updatedTask =>
    simp only [handle]
    rcases taskUpdate_cases tasks updatedTask with ⟨hs, _⟩ | ⟨i, old, pid, _, _, _, _, heq⟩
    · rw [hs]; exact h
    · rw [heq]
      intro t ht
      rcases mem_modify _ _ _ _ ht with ht | ⟨a, _, hta⟩
      · exact h t ht
      · rw [hta]
        exact distinctKeys_spread _ (distinctKeys_spread _ List.nodup_nil)
  | move payload =>
    simp only [handle]
    rcases taskMove_cases tasks payload with ⟨hs, _⟩ | ⟨i, old, taskId, newColumn, _, _, _, heq⟩
    · rw [hs]; exact h
    · rw [heq]
      intro t ht
      rcases mem_modify _ _ _ _ ht with ht | ⟨a, ha, hta⟩
      · exact h t ht
      · rw [hta]
        exact distinctKeys_setProp _ _ (h a (List.mem_iff_getElem?.2 ⟨i, ha⟩))
  | delete taskId =>
    simp only [handle, taskDelete]
    intro t ht
    exact h t (List.mem_of_mem_filter ht)
  | reset =>
    intro t ht
    cases ht

theorem run_distinctKeys (tasks : Store) (reqs : List Request)
    (h : ∀ t ∈ tasks, distinctKeys t) : ∀ t ∈ run tasks reqs, distinctKeys t := by
  induction reqs generalizing tasks with
  | nil => exact h
  | cons r rest ih =>
    have hstep := handle_distinctKeys tasks r h
    cases he : (handle tasks r).error with
    | some e => simp only [run, he]; exact hstep
    | none => simp only [run, he]; exact ih _ hstep

theorem reachable_distinctKeys (reqs : List Request) : ∀ t ∈ run [] reqs, distinctKeys t :=
  run_distinctKeys [] reqs (fun _ ht => by cases ht)

theorem sampleStore_distinctKeys : ∀ t ∈ sampleStore, distinctKeys t := by
  intro t ht
  simp only [sampleStore, List.mem_cons, List.mem_singleton, List.not_mem_nil, or_false] at ht
  rcases ht with rfl | rfl <;> simp [distinctKeys, sampleTask]

theorem move_eq_update_witness :
    taskMove sampleStore (.obj [("taskId", .str "b-2"), ("newColumn", .str "Done")])
        = taskUpdate sampleStore (.obj [("id", .str "b-2"), ("column", .str "Done")])
      ∧ ((taskMove sampleStore
            (.obj [("taskId", .str "b-2"), ("newColumn", .str "Done")])).emitted ≠ []
          ↔ ∃ t ∈ sampleStore, t.get "id" = .str "b-2") :=
  move_eq_update sampleStore "b-2" (.str "Done") sampleStore_distinctKeys

/-! ## Double precision and the completion percentage -/

theorem abs_roundHalfEven_sub_le (q : ℚ) : |(roundHalfEven q : ℚ) - q| ≤ 1 / 2 := by
  have h1 : (⌊q⌋ : ℚ) ≤ q := Int.floor_le q
  have h2 : q < ⌊q⌋ + 1 := Int.lt_floor_add_one q
  unfold roundHalfEven
  split
  · rw [abs_le]; constructor <;> linarith
  · split
    · push_cast; rw [abs_le]; constructor <;> linarith
    · split
      · rw [abs_le]; constructor <;> linarith
      · push_cast; rw [abs_le]; constructor <;> linarith

theorem roundHalfEven_eq_of_lt {t : ℚ} {R : ℤ} (h1 : (R : ℚ) - 1 / 2 < t)
    (h2 : t < R + 1 / 2) : roundHalfEven t = R := by
  by_cases hle : (R : ℚ) ≤ t
  · have hf : ⌊t⌋ = R := by
      rw [Int.floor_eq_iff]; constructor <;> linarith
    unfold roundHalfEven
    rw [hf]
    have : t - R < 1 / 2 := by linarith
    rw [if_pos this]
  · have hf : ⌊t⌋ = R - 1 := by
      rw [Int.floor_eq_iff]; push_cast; constructor <;> linarith
    unfold roundHalfEven
    rw [hf]
    push_cast
    have hn : ¬ (t - (R - 1) < 1 / 2) := by linarith
    have hp : 1 / 2 < t - ((R : ℚ) - 1) := by linarith
    simp only [hn, hp, if_false, if_true]
    ring

theorem toDouble_err (q : ℚ) : |toDouble q - q| ≤ 2 ^ ulpExp q / 2 := by
  have hu : (0 : ℚ) < 2 ^ ulpExp q := zpow_pos (by norm_num) _
  have hr := abs_roundHalfEven_sub_le (q / 2 ^ ulpExp q)
  have key : toDouble q - q = ((roundHalfEven (q / 2 ^ ulpExp q) : ℚ) - q / 2 ^ ulpExp q) * 2 ^ ulpExp q := by
    unfold toDouble
    field_simp
  rw [key, abs_mul, abs_of_pos hu]
  calc |(roundHalfEven (q / 2 ^ ulpExp q) : ℚ) - q / 2 ^ ulpExp q| * 2 ^ ulpExp q
      ≤ 1 / 2 * 2 ^ ulpExp q := by
        apply mul_le_mul_of_nonneg_right hr hu.le
    _ = 2 ^ ulpExp q / 2 := by ring

theorem ulpExp_le (q : ℚ) (B : ℤ) (hB : 0 ≤ B) (h : |q| < 2 ^ (B + 1)) : ulpExp q ≤ B - 52 := by
  unfold ulpExp
  have hlog : Int.log 2 |q| ≤ B := by
    rcases (abs_nonneg q).eq_or_lt with h0 | hpos
    · rw [← h0, Int.log_zero_right]; exact hB
    · have := (Int.lt_zpow_iff_log_lt (b := 2) (by norm_num) hpos (x := B + 1)).1 (by simpa using h)
      omega
  have : max (Int.log 2 |q|) (-1022) ≤ B := max_le hlog (by omega)
  omega

theorem int_log_eq {q : ℚ} {e : ℤ} (h1 : 2 ^ e ≤ q) (h2 : q < 2 ^ (e + 1)) : Int.log 2 q = e := by
  have hpos : 0 < q := lt_of_lt_of_le (zpow_pos (by norm_num) _) h1
  have a := (Int.zpow_le_iff_le_log (b := 2) (by norm_num) hpos (x := e)).1 (by simpa using h1)
  have b := (Int.lt_zpow_iff_log_lt (b := 2) (by norm_num) hpos (x := e + 1)).1 (by simpa using h2)
  omega

theorem toDouble_eq {q : ℚ} (e R : ℤ) (h0 : 0 ≤ q) (h1 : 2 ^ e ≤ q) (h2 : q < 2 ^ (e + 1))
    (he : -1022 ≤ e) (hR1 : (R : ℚ) - 1 / 2 < q / 2 ^ (e - 52))
    (hR2 : q / 2 ^ (e - 52) < R + 1 / 2) : toDouble q = R * 2 ^ (e - 52) := by
  have hu : ulpExp q = e - 52 := by
    unfold ulpExp
    rw [abs_of_nonneg h0, int_log_eq h1 h2, max_eq_left he]
  unfold toDouble
  rw [hu, roundHalfEven_eq_of_lt hR1 hR2]

theorem percent_err (d n : ℕ) (hn : 0 < n) (hd : d ≤ n) :
    |toDouble (toDouble ((d : ℚ) / n) * 100) - 100 * d / n| ≤ 164 / 2 ^ 53 := by
  have hnq : (0 : ℚ) < n := by exact_mod_cast hn
  have hq0 : (0 : ℚ) ≤ (d : ℚ) / n := by positivity
  have hq1 : (d : ℚ) / n ≤ 1 := by
    rw [div_le_one hnq]; exact_mod_cast hd
  -- the quotient
  have hu1 : ulpExp ((d : ℚ) / n) ≤ 0 - 52 := by
    apply ulpExp_le _ 0 (le_refl 0)
    rw [abs_of_nonneg hq0]
    norm_num
    linarith
  have hp1 : (2 : ℚ) ^ ulpExp ((d : ℚ) / n) ≤ 2 ^ (0 - 52 : ℤ) :=
    zpow_le_zpow_right₀ (by norm_num) hu1
  have he1 := toDouble_err ((d : ℚ) / n)
  have hb1 : |toDouble ((d : ℚ) / n) - (d : ℚ) / n| ≤ 1 / 2 ^ 53 := by
    refine le_trans he1 ?_
    have : (2 : ℚ) ^ (0 - 52 : ℤ) / 2 = 1 / 2 ^ 53 := by norm_num
    linarith
  -- the product
  have habs := abs_le.1 hb1
  have hy : |toDouble ((d : ℚ) / n) * 100| < 2 ^ ((6 : ℤ) + 1) := by
    rw [abs_lt]
    norm_num
    constructor <;> nlinarith [habs.1, habs.2]
  have hu2 : ulpExp (toDouble ((d : ℚ) / n) * 100) ≤ 6 - 52 :=
    ulpExp_le _ 6 (by norm_num) hy
  have hp2 : (2 : ℚ) ^ ulpExp (toDouble ((d : ℚ) / n) * 100) ≤ 2 ^ (6 - 52 : ℤ) :=
    zpow_le_zpow_right₀ (by norm_num) hu2
  have he2 := toDouble_err (toDouble ((d : ℚ) / n) * 100)
  have hb2 : |toDouble (toDouble ((d : ℚ) / n) * 100) - toDouble ((d : ℚ) / n) * 100|
      ≤ 64 / 2 ^ 53 := by
    refine le_trans he2 ?_
    have : (2 : ℚ) ^ (6 - 52 : ℤ) / 2 = 64 / 2 ^ 53 := by norm_num
    linarith
  have habs2 := abs_le.1 hb2
  have hx : (100 : ℚ) * d / n = (d : ℚ) / n * 100 := by ring
  rw [hx, abs_le]
  constructor <;> nlinarith [habs.1, habs.2, habs2.1, habs2.2]

theorem mathRound_percent (d n : ℕ) (hn : 0 < n) (hd : d ≤ n) (hlen : n < 2 ^ 32) :
    ((200 * d + n) % (2 * n) ≠ 0 →
        mathRound (toDouble (toDouble ((d : ℚ) / n) * 100)) = ((200 * d + n) / (2 * n) : ℕ))
      ∧ (mathRound (toDouble (toDouble ((d : ℚ) / n) * 100)) = ((200 * d + n) / (2 * n) : ℕ)
          ∨ mathRound (toDouble (toDouble ((d : ℚ) / n) * 100))
              = ((200 * d + n) / (2 * n) : ℕ) - 1) := by
  have herr := abs_le.1 (percent_err d n hn hd)
  set y := toDouble (toDouble ((d : ℚ) / n) * 100) with hy
  have hnq : (0 : ℚ) < n := by exact_mod_cast hn
  have hdm := Nat.div_add_mod (200 * d + n) (2 * n)
  have hlt : (200 * d + n) % (2 * n) < 2 * n := Nat.mod_lt _ (by omega)
  set k : ℕ := (200 * d + n) / (2 * n) with hk
  set r : ℕ := (200 * d + n) % (2 * n) with hr
  have hcast : (2 * (n : ℚ)) * k + r = 200 * d + n := by exact_mod_cast hdm
  have hnb : (n : ℚ) < 2 ^ 32 := by exact_mod_cast hlen
  -- the exact value, shifted by one half
  have hx : (100 : ℚ) * d / n + 1 / 2 = k + r / (2 * n) := by
    have hsum : (k : ℚ) + r / (2 * n) = (2 * n * k + r) / (2 * n) := by
      field_simp
      ring
    rw [hsum, hcast]
    field_simp
    ring
  have hrn : (0 : ℚ) ≤ r := by positivity
  have hrlt : (r : ℚ) + 1 ≤ 2 * n := by exact_mod_cast hlt
  have h2n : (0 : ℚ) < 2 * n := by linarith
  have hw : (164 : ℚ) / 2 ^ 53 < 1 / (2 * n) := by
    rw [div_lt_div_iff₀ (by norm_num) h2n]
    nlinarith
  have hfrac_le : (r : ℚ) / (2 * n) ≤ 1 - 1 / (2 * n) := by
    rw [div_le_iff₀ h2n]
    field_simp
    linarith
  have hnontie : r ≠ 0 → mathRound y = (k : ℤ) := by
    intro hr0
    have hr1 : (1 : ℚ) ≤ r := by
      have : 1 ≤ r := Nat.one_le_iff_ne_zero.2 hr0
      exact_mod_cast this
    have hfrac_ge : 1 / (2 * (n : ℚ)) ≤ r / (2 * n) := by
      apply div_le_div_of_nonneg_right hr1 h2n.le
    unfold mathRound
    rw [Int.floor_eq_iff]
    push_cast
    constructor <;> linarith [herr.1, herr.2]
  refine ⟨hnontie, ?_⟩
  by_cases hr0 : r = 0
  · have hx0 : (100 : ℚ) * d / n + 1 / 2 = k := by
      rw [hx, hr0]; simp
    have hsmall : (164 : ℚ) / 2 ^ 53 < 1 := by norm_num
    by_cases hge : (k : ℚ) ≤ y + 1 / 2
    · left
      unfold mathRound
      rw [Int.floor_eq_iff]
      push_cast
      constructor <;> linarith [herr.1, herr.2]
    · right
      unfold mathRound
      rw [Int.floor_eq_iff]
      push_cast
      constructor <;> linarith [herr.1, herr.2]
  · exact Or.inl (hnontie hr0)

theorem exact_round_eq (d n : ℕ) (hn : 0 < n) :
    ⌊(100 : ℚ) * d / n + 1 / 2⌋ = ((200 * d + n) / (2 * n) : ℕ) := by
  have hnq : (0 : ℚ) < n := by exact_mod_cast hn
  have hdm := Nat.div_add_mod (200 * d + n) (2 * n)
  have hlt : (200 * d + n) % (2 * n) < 2 * n := Nat.mod_lt _ (by omega)
  set k : ℕ := (200 * d + n) / (2 * n) with hk
  set r : ℕ := (200 * d + n) % (2 * n) with hr
  have hcast : (2 * (n : ℚ)) * k + r = 200 * d + n := by exact_mod_cast hdm
  have hx : (100 : ℚ) * d / n + 1 / 2 = k + r / (2 * n) := by
    have hsum : (k : ℚ) + r / (2 * n) = (2 * n * k + r) / (2 * n) := by
      field_simp
      ring
    rw [hsum, hcast]
    field_simp
    ring
  have h2n : (0 : ℚ) < 2 * n := by linarith
  have hrn : (0 : ℚ) ≤ r / (2 * n) := by positivity
  have hrlt : (r : ℚ) < 2 * n := by exact_mod_cast hlt
  have hfrac : (r : ℚ) / (2 * n) < 1 := by
    rw [div_lt_one h2n]; exact hrlt
  rw [Int.floor_eq_iff]
  push_cast
  constructor <;> linarith

theorem doneTasks_le (tasks : Store) : doneTasks tasks ≤ tasks.length :=
  List.length_filter_le _ _

theorem completionPercentage_eq (tasks : Store) (hne : tasks ≠ []) :
    completionPercentage tasks
      = mathRound (toDouble (toDouble ((doneTasks tasks : ℚ) / (tasks.length : ℚ)) * 100)) := by
  have hpos : tasks.length > 0 := List.length_pos.2 hne
  simp only [completionPercentage, hpos, if_true, jsMul, jsDiv]

theorem doneTasks_boardOf (a b : Nat) : doneTasks (boardOf a b) = a := by
  have h1 : strictEq ((sampleTask "d-1" "Finished" "Done").get "column") (.str "Done") = true :=
    rfl
  have h2 : strictEq ((sampleTask "t-1" "Waiting" "To Do").get "column") (.str "Done") = false :=
    rfl
  simp [doneTasks, boardOf, List.filter_append, List.filter_replicate, h1, h2]

theorem length_boardOf (a b : Nat) : (boardOf a b).length = a + b := by
  simp [boardOf]

theorem boardOf_ne_nil (a b : Nat) (h : 0 < a + b) : boardOf a b ≠ [] := by
  intro e
  have := length_boardOf a b
  rw [e] at this
  simp at this
  omega

theorem completionPercentage_boardOf (a b : Nat) (h : 0 < a + b) :
    completionPercentage (boardOf a b)
      = mathRound (toDouble (toDouble ((a : ℚ) / ((a + b : ℕ) : ℚ)) * 100)) := by
  rw [completionPercentage_eq _ (boardOf_ne_nil a b h), doneTasks_boardOf, length_boardOf]

theorem percent_23_of_40 : mathRound (toDouble (toDouble ((23 : ℚ) / 40) * 100)) = 57 := by
  have h1 : toDouble ((23 : ℚ) / 40) = 5179139571476070 * 2 ^ (-53 : ℤ) := by
    have := toDouble_eq (q := 23 / 40) (-1) 5179139571476070 (by norm_num) (by norm_num)
      (by norm_num) (by norm_num) (by norm_num) (by norm_num)
    simpa using this
  have h2 : toDouble ((5179139571476070 : ℚ) * 2 ^ (-53 : ℤ) * 100)
      = 8092405580431359 * 2 ^ (-47 : ℤ) := by
    have := toDouble_eq (q := (5179139571476070 : ℚ) * 2 ^ (-53 : ℤ) * 100) 5 8092405580431359
      (by norm_num) (by norm_num) (by norm_num) (by norm_num) (by norm_num) (by norm_num)
    simpa using this
  rw [h1, h2]
  unfold mathRound
  rw [Int.floor_eq_iff]
  constructor <;> norm_num

/-- C22, as stated, fails: with 23 tasks out of 40 in "Done" the exact value is
57.5, which rounds half up to 58, but the chart shows 57, because the product
`(23 / 40) * 100` in double precision is just below 57.5. -/
theorem chart_23_of_40 :
    doneTasks (boardOf 23 17) = 23 ∧ (boardOf 23 17).length = 40
      ∧ ⌊(100 : ℚ) * 23 / 40 + 1 / 2⌋ = 58
      ∧ completionPercentage (boardOf 23 17) = 57 := by
  refine ⟨doneTasks_boardOf 23 17, length_boardOf 23 17, ?_, ?_⟩
  · rw [Int.floor_eq_iff]
    constructor <;> norm_num
  · rw [completionPercentage_boardOf 23 17 (by norm_num)]
    have := percent_23_of_40
    norm_num at this ⊢
    exact this

theorem round_all_done (n : ℕ) (hn : 0 < n) :
    (200 * n + n) % (2 * n) ≠ 0 ∧ (200 * n + n) / (2 * n) = 100 := by
  have h1 : 200 * n + n = 2 * n * 100 + n := by ring
  rw [h1, Nat.mul_add_mod, Nat.mul_add_div (by omega), Nat.mod_eq_of_lt (by omega),
    Nat.div_eq_of_lt (by omega)]
  exact ⟨by omega, rfl⟩

theorem round_none_done (n : ℕ) (hn : 0 < n) :
    (200 * 0 + n) % (2 * n) ≠ 0 ∧ (200 * 0 + n) / (2 * n) = 0 := by
  simp only [Nat.mul_zero, Nat.zero_add]
  rw [Nat.mod_eq_of_lt (by omega), Nat.div_eq_of_lt (by omega)]
  exact ⟨by omega, rfl⟩

/-- C22, amended: for a non-empty task list with `d` of `n` tasks in "Done"
(`n` below the greatest array length), the chart shows the detail "d of n tasks
done" and the percentage `Math.round((d / n) * 100)` computed in double
precision.  That is the exact `100 * d / n` rounded half up whenever the exact
value is not halfway between two integers; when it is halfway the chart shows
that or one less.  It shows 100 when every task is done and 0 when none is,
and for the empty list it shows the no-tasks message. -/
theorem chart_percentage (tasks : Store) (hne : tasks ≠ []) (hlen : tasks.length < 2 ^ 32) :
    TaskProgressChart [] = .noTasks "No tasks yet. Add tasks to see progress."
      ∧ TaskProgressChart tasks
          = .progress (toString (completionPercentage tasks) ++ "% Complete")
              (toString (doneTasks tasks) ++ " of " ++ toString tasks.length ++ " tasks done")
              [("To Do", (columnTasks tasks "To Do").length),
               ("In Progress", (columnTasks tasks "In Progress").length),
               ("Done", (columnTasks tasks "Done").length)]
      ∧ completionPercentage tasks
          = mathRound (jsMul (jsDiv (doneTasks tasks) tasks.length) 100)
      ∧ ⌊(100 : ℚ) * doneTasks tasks / tasks.length + 1 / 2⌋
          = ((200 * doneTasks tasks + tasks.length) / (2 * tasks.length) : ℕ)
      ∧ ((200 * doneTasks tasks + tasks.length) % (2 * tasks.length) ≠ 0 →
          completionPercentage tasks = ⌊(100 : ℚ) * doneTasks tasks / tasks.length + 1 / 2⌋)
      ∧ (completionPercentage tasks = ⌊(100 : ℚ) * doneTasks tasks / tasks.length + 1 / 2⌋
          ∨ completionPercentage tasks
              = ⌊(100 : ℚ) * doneTasks tasks / tasks.length + 1 / 2⌋ - 1)
      ∧ (doneTasks tasks = tasks.length → completionPercentage tasks = 100)
      ∧ (doneTasks tasks = 0 → completionPercentage tasks = 0) := by
  have hpos : 0 < tasks.length := List.length_pos.2 hne
  have hexact := exact_round_eq (doneTasks tasks) tasks.length hpos
  have hround := mathRound_percent (doneTasks tasks) tasks.length hpos (doneTasks_le tasks) hlen
  have hpct := completionPercentage_eq tasks hne
  refine ⟨rfl, ?_, ?_, hexact, ?_, ?_, ?_, ?_⟩
  · have hz : ¬ tasks.length = 0 := by omega
    simp only [TaskProgressChart, hz, if_false, columnTasks]
  · simp only [completionPercentage, hpos, gt_iff_lt, if_true]
  · intro hnt
    rw [hpct, hexact]
    exact hround.1 hnt
  · rw [hpct, hexact]
    exact hround.2
  · intro hall
    rw [hpct]
    have h := round_all_done tasks.length hpos
    rw [hall] at hround ⊢
    rw [hround.1 h.1, h.2]
    rfl
  · intro hnone
    rw [hpct]
    have h := round_none_done tasks.length hpos
    rw [hnone] at hround ⊢
    rw [hround.1 h.1, h.2]
    rfl

theorem chart_percentage_witness :
    completionPercentage (boardOf 1 2) = ⌊(100 : ℚ) * doneTasks (boardOf 1 2)
        / (boardOf 1 2).length + 1 / 2⌋
      ∧ ⌊(100 : ℚ) * doneTasks (boardOf 1 2) / (boardOf 1 2).length + 1 / 2⌋
          = ((200 * doneTasks (boardOf 1 2) + (boardOf 1 2).length)
              / (2 * (boardOf 1 2).length) : ℕ)
      ∧ (200 * doneTasks (boardOf 1 2) + (boardOf 1 2).length) / (2 * (boardOf 1 2).length)
          = 33 :=
  ⟨(chart_percentage (boardOf 1 2) (boardOf_ne_nil 1 2 (by decide))
      (by rw [length_boardOf]; decide)).2.2.2.2.1
      (by rw [doneTasks_boardOf, length_boardOf]; decide),
   (chart_percentage (boardOf 1 2) (boardOf_ne_nil 1 2 (by decide))
      (by rw [length_boardOf]; decide)).2.2.2.1,
   by rw [doneTasks_boardOf, length_boardOf]⟩

theorem mem_boardOf_open (a b : Nat) (hb : b ≠ 0) :
    sampleTask "t-1" "Waiting" "To Do" ∈ boardOf a b :=
  List.mem_append.2 (Or.inr (List.mem_replicate.2 ⟨hb, rfl⟩))

theorem mem_boardOf_done (a b : Nat) (ha : a ≠ 0) :
    sampleTask "d-1" "Finished" "Done" ∈ boardOf a b :=
  List.mem_append.2 (Or.inl (List.mem_replicate.2 ⟨ha, rfl⟩))

/-- C29: a chart that shows 100 need not have every task done, and one that
shows 0 may have a task done: with 399 of 400 tasks in "Done" the completion
percentage is 100, and with 1 of 400 it is 0. -/
theorem percentage_saturates :
    (∃ t ∈ boardOf 399 1, t.get "column" ≠ .str "Done")
      ∧ doneTasks (boardOf 399 1) = 399 ∧ (boardOf 399 1).length = 400
      ∧ completionPercentage (boardOf 399 1) = 100
      ∧ (∃ t ∈ boardOf 1 399, t.get "column" = .str "Done")
      ∧ doneTasks (boardOf 1 399) = 1 ∧ (boardOf 1 399).length = 400
      ∧ completionPercentage (boardOf 1 399) = 0 := by
  refine ⟨⟨sampleTask "t-1" "Waiting" "To Do", ?_, ?_⟩, doneTasks_boardOf 399 1,
    length_boardOf 399 1, ?_,
    ⟨sampleTask "d-1" "Finished" "Done", ?_, rfl⟩, doneTasks_boardOf 1 399,
    length_boardOf 1 399, ?_⟩
  · exact mem_boardOf_open 399 1 (by decide)
  · have : (sampleTask "t-1" "Waiting" "To Do").get "column" = .str "To Do" := rfl
    rw [this]
    simp
  · rw [completionPercentage_boardOf 399 1 (by norm_num)]
    have h := (mathRound_percent 399 (399 + 1) (by norm_num) (by norm_num) (by norm_num)).1
      (by norm_num)
    rw [h]
    norm_num
  · exact mem_boardOf_done 1 399 (by decide)
  · rw [completionPercentage_boardOf 1 399 (by norm_num)]
    have h := (mathRound_percent 1 (1 + 399) (by norm_num) (by norm_num) (by norm_num)).1
      (by norm_num)
    rw [h]
    norm_num

end Kanban
